import Mathlib

/-!
Verification development for the SHADOw / Rshadow second-order autodiff and
optimization engine. The C++ sources are shallowly embedded: `std::map` based
containers become association lists, `double` becomes `ℚ` (the claims under
study are control-flow and exact-arithmetic claims; IEEE-specific behaviour is
noted where it matters), and the template-generic reverse sweep is embedded as
a sweep over operators carrying their `evaluate` / `local_diff` capabilities as
data, exactly as the C++ templates receive them.
-/

namespace Shadow

/-! ### Association-list primitives (shallow embedding of `std::map`)

`alookup` is `map::find`, `aset` is `insert_or_assign` (replace in place),
`akeyerase` is `map::erase(key)`. The C++ map keeps keys sorted; entry order
never influences any property stated below (all updates commute), so the
embedding keeps insertion order instead of sortedness. -/

def alookup {α : Type} : List (ℕ × α) → ℕ → Option α
  | [], _ => none
  | e :: t, k => if e.1 = k then some e.2 else alookup t k

def aset {α : Type} : List (ℕ × α) → ℕ → α → List (ℕ × α)
  | [], k, v => [(k, v)]
  | e :: t, k, v => if e.1 = k then (k, v) :: t else e :: aset t k v

def akeyerase {α : Type} : List (ℕ × α) → ℕ → List (ℕ × α)
  | [], _ => []
  | e :: t, k => if e.1 = k then akeyerase t k else e :: akeyerase t k

/-! ### SparseSymMat (`sparse_matrix.h`)

`matrix_t = std::map<index_t, std::map<index_t, double>>`. -/

abbrev SparseRow := List (ℕ × ℚ)

abbrev SparseSymMat := List (ℕ × SparseRow)

namespace SparseSymMat

/-- Read-only matrix value: `SparseSymMat::read`, 0.0 when the row or the
entry is absent. -/
def read (m : SparseSymMat) (i j : ℕ) : ℚ :=
  match alookup m i with
  | none => 0
  | some r =>
    match alookup r j with
    | none => 0
    | some v => v

/-- An `(i,j)` entry is materialized in the map-of-maps. -/
def stored (m : SparseSymMat) (i j : ℕ) : Bool :=
  match alookup m i with
  | none => false
  | some r => (alookup r j).isSome

/-- A row is materialized (`get_row_ptr` returns non-null). -/
def rowStored (m : SparseSymMat) (i : ℕ) : Bool :=
  (alookup m i).isSome

/-- Row i of the matrix, `[]` when absent (`get_row_ptr`). -/
def getRow (m : SparseSymMat) (i : ℕ) : SparseRow :=
  (alookup m i).getD []

/-- The map `insert({j, 0.0})` step of `elem_ref_t::prepare_write` applied to
one row: keep an existing entry, otherwise add `(j, 0.0)`. -/
def rowInsertDefault (r : SparseRow) (j : ℕ) : SparseRow :=
  if (alookup r j).isSome then r else r ++ [(j, 0)]

/-- The map `insert({i, row_t{}})` then `insert({j, 0.0})` steps of
`prepare_write` for one direction: make sure row `i` exists and holds an
`(i,j)` entry, inserting `0.0` when absent. -/
def insertEntryDefault (m : SparseSymMat) (i j : ℕ) : SparseSymMat :=
  match alookup m i with
  | none => m ++ [(i, [(j, 0)])]
  | some r => aset m i (rowInsertDefault r j)

/-- `elem_ref_t::prepare_write`: materialize `(i,j)`, and `(j,i)` when
`j ≠ i`, keeping existing values. -/
def prepareWrite (m : SparseSymMat) (i j : ℕ) : SparseSymMat :=
  let m1 := insertEntryDefault m i j
  if j = i then m1 else insertEntryDefault m1 j i

/-- Write through a valid element iterator: `ij->second += x` (the entry is
assumed materialized; on an absent entry this is the no-op the C++ iterator
write never performs). -/
def addAt (m : SparseSymMat) (i j : ℕ) (x : ℚ) : SparseSymMat :=
  match alookup m i with
  | none => m
  | some r =>
    match alookup r j with
    | none => m
    | some v => aset m i (aset r j (v + x))

/-- Write through a valid element iterator: `ij->second = x`. -/
def setAt (m : SparseSymMat) (i j : ℕ) (x : ℚ) : SparseSymMat :=
  match alookup m i with
  | none => m
  | some r =>
    match alookup r j with
    | none => m
    | some _ => aset m i (aset r j x)

/-- One direction of `elem_ref_t::set_zero`: erase the `(i,j)` entry from row
`i` and drop row `i` when it becomes empty. -/
def rowEraseEntry (m : SparseSymMat) (i j : ℕ) : SparseSymMat :=
  match alookup m i with
  | none => m
  | some r =>
    let r' := akeyerase r j
    if r' = [] then akeyerase m i else aset m i r'

/-- The state of an `elem_ref_t`: target indices plus the `is_valid_ij`
flag (the C++ object also caches map iterators; their targets are recovered
from `(i,j)` since the referenced entries stay in place while the reference
is alive). -/
structure ElemRef where
  i : ℕ
  j : ℕ
  valid : Bool
deriving Repr, DecidableEq

/-- `SparseSymMat::get(i,j)`: a fresh element reference, `is_valid_ij = false`. -/
def get (i j : ℕ) : ElemRef :=
  { i := i, j := j, valid := false }

/-- `elem_ref_t::set_zero`: no-op on an invalid reference, otherwise remove
the entry and its mirror and drop rows left empty. -/
def refSetZero (m : SparseSymMat) (r : ElemRef) : SparseSymMat × ElemRef :=
  if r.valid = false then (m, r)
  else
    let m1 := rowEraseEntry m r.i r.j
    let r' := { r with valid := false }
    if r.j = r.i then (m1, r') else (rowEraseEntry m1 r.j r.i, r')

/-- `elem_ref_t::operator+=`: skip on `x == 0.0`; otherwise `prepare_write`
when invalid, then add to `(i,j)` and, off the diagonal, to `(j,i)`. -/
def refPlusEq (m : SparseSymMat) (r : ElemRef) (x : ℚ) : SparseSymMat × ElemRef :=
  if x = 0 then (m, r)
  else
    let m1 := if r.valid then m else prepareWrite m r.i r.j
    let r' := { r with valid := true }
    let m2 := addAt m1 r.i r.j x
    if r.j = r.i then (m2, r') else (addAt m2 r.j r.i x, r')

/-- `elem_ref_t::operator=`: `set_zero` on `x == 0.0`; otherwise
`prepare_write` when invalid, then assign `(i,j)` and, off the diagonal,
`(j,i)`. -/
def refAssign (m : SparseSymMat) (r : ElemRef) (x : ℚ) : SparseSymMat × ElemRef :=
  if x = 0 then refSetZero m r
  else
    let m1 := if r.valid then m else prepareWrite m r.i r.j
    let r' := { r with valid := true }
    let m2 := setAt m1 r.i r.j x
    if r.j = r.i then (m2, r') else (setAt m2 r.j r.i x, r')

/-- The one-shot write `hessian.get(i, j) += x` used throughout the reverse
sweep: a fresh reference, one accumulation, reference discarded. -/
def plusEq (m : SparseSymMat) (i j : ℕ) (x : ℚ) : SparseSymMat :=
  (refPlusEq m (get i j) x).1

/-- The one-shot write `get(i, j) = x` on a fresh reference. -/
def assign (m : SparseSymMat) (i j : ℕ) (x : ℚ) : SparseSymMat :=
  (refAssign m (get i j) x).1

/-- `SparseSymMat::erase(i)`: walk row `i`, removing the `(j,i)` mirror from
every row `j ≠ i` (dropping rows left empty), then remove row `i` itself. -/
def erase (m : SparseSymMat) (i : ℕ) : SparseSymMat :=
  match alookup m i with
  | none => m
  | some rowi =>
    let m1 := rowi.foldl (fun acc e => if e.1 = i then acc else rowEraseEntry acc e.1 i) m
    akeyerase m1 i

/-- Symmetry invariant of the two-way entry scheme: every entry and its
mirror are simultaneously present and hold the same value. -/
def SymOK (m : SparseSymMat) : Prop :=
  ∀ i j : ℕ, (stored m i j = true ↔ stored m j i = true) ∧ read m i j = read m j i

/-- No materialized row is empty (rows are dropped as soon as their last
entry is removed). -/
def NoEmptyRows (m : SparseSymMat) : Prop :=
  ∀ e ∈ m, e.2 ≠ []

end SparseSymMat

/-! ### Sequences of user-visible SparseSymMat mutations (claim C2) -/

/-- A user-visible mutation of a `SparseSymMat`: an accumulation or an
assignment through a fresh element reference, or a row/column erasure. -/
inductive HessWrite where
  | plusEq (i j : ℕ) (x : ℚ)
  | assign (i j : ℕ) (x : ℚ)
  | erase (i : ℕ)
deriving Repr, DecidableEq

def applyHessWrite (m : SparseSymMat) : HessWrite → SparseSymMat
  | .plusEq i j x => SparseSymMat.plusEq m i j x
  | .assign i j x => SparseSymMat.assign m i j x
  | .erase i => SparseSymMat.erase m i

def applyHessWrites (m : SparseSymMat) (l : List HessWrite) : SparseSymMat :=
  l.foldl applyHessWrite m

/-! ### Tape and trace playback (`tape_autodiff.cpp`)

The C++ reverse sweep `OpVariantReverse` is a template over operator types
exposing `in` (trace indices of the operands), `evaluate` and `local_diff`
(the local Jacobian and Hessian of the output with respect to the local
operand positions, as functions of the current trace values). The embedding
carries those capabilities as data on each scalar-output operator and runs
the sweep's generic n-ary code paths; for one and two operands these are
step-for-step the unrolled `OpIn::Array<1>` and `OpIn::ScalarScalar` paths
of the source (same writes, same zero-skips). Operator `p` of a tape writes
trace slot `nIn + p`; the last output is the objective. -/

/-- A scalar-output tape operator: operand slots plus the three capabilities
of the operator library (`evaluate`, first and second local partials). -/
structure SOp where
  ins : List ℕ
  f : List ℚ → ℚ
  d1 : List ℚ → ℕ → ℚ
  d2 : List ℚ → ℕ → ℕ → ℚ

/-- A tape of scalar-output operators over `nIn` input slots. -/
structure STape where
  nIn : ℕ
  ops : List SOp

/-- Number of trace slots, `Tape::trace_size()`. -/
def STape.traceSize (t : STape) : ℕ :=
  t.nIn + t.ops.length

/-- Forward sweep from operator `p` on: `Tape::play_forward`, each operator
writing its output slot from the current values. -/
def playForwardFrom (nIn : ℕ) : List SOp → (ℕ → ℚ) → ℕ → (ℕ → ℚ)
  | [], v, _ => v
  | op :: rest, v, p =>
    playForwardFrom nIn rest (Function.update v (nIn + p) (op.f (op.ins.map v))) (p + 1)

/-- `Tape::play_forward` over the whole tape. -/
def STape.playForward (t : STape) (v : ℕ → ℚ) : ℕ → ℚ :=
  playForwardFrom t.nIn t.ops v 0

/-- The recorded objective: the value of the last output slot after the
forward sweep (`Trace::result()` reads `values.back()`). -/
def STape.objective (t : STape) (v : ℕ → ℚ) : ℚ :=
  t.playForward v (t.traceSize - 1)

/-- Mutable reverse-sweep state: the adjoint vector and the sparse Hessian
of the bound `Trace`. -/
structure RState where
  adj : ℕ → ℚ
  hess : SparseSymMat

/-- Adjoint update of the sweep (generic iterable path): for every operand
position with a nonzero partial, `adjoints[in[j]] += di/dj * w`. -/
def adjointUpdate (op : SOp) (args : List ℚ) (w : ℚ) (adj : ℕ → ℚ) : ℕ → ℚ :=
  (List.range op.ins.length).foldl
    (fun a jl =>
      let didj := op.d1 args jl
      if didj = 0 then a
      else
        let j := op.ins.getD jl 0
        Function.update a j (a j + didj * w))
    adj

/-- Pushing part 1: for every live entry `(i, l)` of row `i` with `l ≠ i` and
every operand `k` with a nonzero partial, `h(l, k) += di/dk * h(i, l)`. -/
def pushingPart1 (op : SOp) (args : List ℚ) (rowi : SparseRow) (i : ℕ)
    (h : SparseSymMat) : SparseSymMat :=
  rowi.foldl
    (fun h e =>
      if e.1 = i then h
      else
        (List.range op.ins.length).foldl
          (fun h kl =>
            let didk := op.d1 args kl
            if didk = 0 then h
            else SparseSymMat.plusEq h e.1 (op.ins.getD kl 0) (didk * e.2))
          h)
    h

/-- Pushing part 2: when the diagonal entry `h(i,i)` is live, for every
unordered operand pair `(j,k)` with nonzero partials,
`h(j, k) += di/dj * di/dk * h(i, i)`. -/
def pushingPart2 (op : SOp) (args : List ℚ) (rowi : SparseRow) (i : ℕ)
    (h : SparseSymMat) : SparseSymMat :=
  match alookup rowi i with
  | none => h
  | some ri =>
    (List.range op.ins.length).foldl
      (fun h jl =>
        let didj := op.d1 args jl
        if didj = 0 then h
        else
          (List.range' jl (op.ins.length - jl)).foldl
            (fun h kl =>
              let didk := op.d1 args kl
              if didk = 0 then h
              else SparseSymMat.plusEq h (op.ins.getD jl 0) (op.ins.getD kl 0)
                (didj * didk * ri))
            h)
      h

/-- Creating part: for every operand `j`, `h(j,j) += d2i/dj2 * w` when the
local diagonal is nonzero, and for every later operand `k`,
`h(j,k) += d2i/djdk * w` when the local off-diagonal is nonzero. -/
def creatingPart (op : SOp) (args : List ℚ) (w : ℚ) (h : SparseSymMat) :
    SparseSymMat :=
  (List.range op.ins.length).foldl
    (fun h jl =>
      let hd :=
        let d := op.d2 args jl jl
        if d = 0 then h
        else SparseSymMat.plusEq h (op.ins.getD jl 0) (op.ins.getD jl 0) (d * w)
      (List.range' (jl + 1) (op.ins.length - (jl + 1))).foldl
        (fun h kl =>
          let d := op.d2 args jl kl
          if d = 0 then h
          else SparseSymMat.plusEq h (op.ins.getD jl 0) (op.ins.getD kl 0) (d * w))
        hd)
    h

/-- One visit of `OpVariantReverse::operator()` for the scalar output `i` of
operator `op`: adjoint update (skipped when `w = 0`), pushing parts over a
snapshot of row `i` (the sweep never writes row `i` while iterating it, since
every write targets a live partner `l ≠ i` or an operand slot), creating part
(skipped when `w = 0`), then housekeeping `erase(i)` when row `i` existed. -/
def processOp (v : ℕ → ℚ) (i : ℕ) (op : SOp) (st : RState) : RState :=
  let args := op.ins.map v
  let w := st.adj i
  let adj' := if w = 0 then st.adj else adjointUpdate op args w st.adj
  let rowi := SparseSymMat.getRow st.hess i
  let h1 := pushingPart1 op args rowi i st.hess
  let h2 := pushingPart2 op args rowi i h1
  let h3 := if w = 0 then h2 else creatingPart op args w h2
  let h4 := if SparseSymMat.rowStored st.hess i then SparseSymMat.erase h3 i else h3
  { adj := adj', hess := h4 }

/-- `Tape::play_reverse`: clear adjoints, seed `adjoints.back() = 1`, clear
the Hessian, then visit the operators in reverse record order. -/
def STape.playReverse (t : STape) (v : ℕ → ℚ) : RState :=
  let adj0 : ℕ → ℚ := Function.update (fun _ => 0) (t.traceSize - 1) 1
  (t.ops.enum.reverse).foldl
    (fun st pe => processOp v (t.nIn + pe.1) pe.2 st)
    { adj := adj0, hess := [] }

/-- `Tape::play`: forward sweep then reverse sweep; returns the final values
together with the adjoint / Hessian state. -/
def STape.play (t : STape) (v : ℕ → ℚ) : (ℕ → ℚ) × RState :=
  let vals := t.playForward v
  (vals, t.playReverse vals)

/-! ### The ground truth: chain-rule derivatives of the recorded objective

The objective of a tape is the composite of its operators' `f`s. Its
gradient and Hessian with respect to the input slots follow from the exact
first and second order chain rule applied in record order (forward
accumulation of first and second order sensitivities); this is the
specification against which the reverse sweep is checked. All derivatives
are evaluated at the final forward values, exactly where the sweep reads
its local partials. -/

/-- First/second order sensitivity record of one trace slot with respect to
the input slots: value, gradient, and Hessian (as total functions). -/
structure Sens where
  g : ℕ → ℚ
  h : ℕ → ℕ → ℚ

/-- Chain rule for one operator: gradient `Σ_j di/dj · g_j` and Hessian
`Σ_j di/dj · h_j + Σ_{j,k} d2i/djdk · g_j ⊗ g_k` over its operands. -/
def chainStep (op : SOp) (args : List ℚ) (sens : ℕ → Sens) : Sens :=
  { g := fun a =>
      ((List.range op.ins.length).map
        (fun jl => op.d1 args jl * (sens (op.ins.getD jl 0)).g a)).sum
    h := fun a b =>
      ((List.range op.ins.length).map
        (fun jl => op.d1 args jl * (sens (op.ins.getD jl 0)).h a b)).sum +
      ((List.range op.ins.length).map
        (fun jl =>
          ((List.range op.ins.length).map
            (fun kl => op.d2 args jl kl *
              (sens (op.ins.getD jl 0)).g a * (sens (op.ins.getD kl 0)).g b)).sum)).sum }

/-- Forward accumulation of sensitivities along the tape: input slot `j`
starts with gradient `δ_j` and zero Hessian; each operator's output slot
receives the chain-rule combination of its operands' sensitivities. -/
def sensFrom (nIn : ℕ) : List SOp → (ℕ → ℚ) → (ℕ → Sens) → ℕ → (ℕ → Sens)
  | [], _, s, _ => s
  | op :: rest, v, s, p =>
    let v' := Function.update v (nIn + p) (op.f (op.ins.map v))
    let s' := Function.update s (nIn + p) (chainStep op (op.ins.map v) s)
    sensFrom nIn rest v' s' (p + 1)

/-- Sensitivities of every trace slot of a tape at input values `v`. -/
def STape.sens (t : STape) (v : ℕ → ℚ) : ℕ → Sens :=
  sensFrom t.nIn t.ops v
    (fun j => { g := fun a => if a = j then 1 else 0, h := fun _ _ => 0 }) 0

/-- Gradient of the objective with respect to input slot `a`. -/
def STape.grad (t : STape) (v : ℕ → ℚ) (a : ℕ) : ℚ :=
  (t.sens v (t.traceSize - 1)).g a

/-- Hessian of the objective with respect to input slots `a`, `b`. -/
def STape.hessTrue (t : STape) (v : ℕ → ℚ) (a b : ℕ) : ℚ :=
  (t.sens v (t.traceSize - 1)).h a b

/-! ### The scalar operator library (`op_unary.h`, `op_plus.h`, `op_minus.h`,
`op_divide.h`, `op_power.h`, multiply family)

Each operator is translated as an `SOp` from its `evaluate` and
`LocalDiff::partial` members. Division and inversion use the field inverse of
`ℚ`, whose convention `0⁻¹ = 0` stands in for the IEEE `±inf`/`NaN` the C++
produces at the same singular points; equivalence statements about those
operators therefore carry a nonzero-input hypothesis. -/

/-- `IdentityScalar`: `y = x`, partial 1, second partial 0. -/
def opIdentity (a : ℕ) : SOp :=
  { ins := [a]
    f := fun l => l.getD 0 0
    d1 := fun _ _ => 1
    d2 := fun _ _ _ => 0 }

/-- `TrivialScalar<RESULT>`: constant integer result, all partials 0. -/
def opTrivial (res : ℤ) (a : ℕ) : SOp :=
  { ins := [a]
    f := fun _ => (res : ℚ)
    d1 := fun _ _ => 0
    d2 := fun _ _ _ => 0 }

/-- `SquareScalar`: `y = x*x`, partial `2x`, second partial `2`. -/
def opSquare (a : ℕ) : SOp :=
  { ins := [a]
    f := fun l => l.getD 0 0 * l.getD 0 0
    d1 := fun l _ => 2 * l.getD 0 0
    d2 := fun _ _ _ => 2 }

/-- `CubeScalar`: `y = x*x*x`, partial `3x²`, second partial `6x`. -/
def opCube (a : ℕ) : SOp :=
  { ins := [a]
    f := fun l => l.getD 0 0 * l.getD 0 0 * l.getD 0 0
    d1 := fun l _ => 3 * l.getD 0 0 * l.getD 0 0
    d2 := fun l _ _ => 6 * l.getD 0 0 }

/-- `InvertScalar`: `y = 1/x`, partial `-x_inv²`, second partial `2·x_inv³`. -/
def opInvert (a : ℕ) : SOp :=
  { ins := [a]
    f := fun l => (l.getD 0 0)⁻¹
    d1 := fun l _ => -((l.getD 0 0)⁻¹ * (l.getD 0 0)⁻¹)
    d2 := fun l _ _ => 2 * ((l.getD 0 0)⁻¹ * (l.getD 0 0)⁻¹ * (l.getD 0 0)⁻¹) }

/-- `PlusScalarScalar<true,true>`: `y = a + b`, partials 1, Hessian 0. -/
def opPlusFF (a b : ℕ) : SOp :=
  { ins := [a, b]
    f := fun l => l.getD 0 0 + l.getD 1 0
    d1 := fun _ _ => 1
    d2 := fun _ _ _ => 0 }

/-- `MinusScalarScalar<true,true>`: `y = a - b`, partials `(1, -1)`,
Hessian 0. -/
def opMinusFF (a b : ℕ) : SOp :=
  { ins := [a, b]
    f := fun l => l.getD 0 0 - l.getD 1 0
    d1 := fun _ j => if j = 1 then -1 else 1
    d2 := fun _ _ _ => 0 }

/-- `MultiplyScalarScalar<true,true>`: `y = a * b`, partials swapped values,
Hessian off-diagonal 1, diagonal 0. -/
def opMultiplyFF (a b : ℕ) : SOp :=
  { ins := [a, b]
    f := fun l => l.getD 0 0 * l.getD 1 0
    d1 := fun l j => if j = 0 then l.getD 1 0 else l.getD 0 0
    d2 := fun _ j k => if j = k then 0 else 1 }

/-- `MultiplyScalarScalar<true,false>`: `y = x * c`, partial `c`, Hessian 0. -/
def opMultiplyConst (a : ℕ) (c : ℚ) : SOp :=
  { ins := [a]
    f := fun l => l.getD 0 0 * c
    d1 := fun _ _ => c
    d2 := fun _ _ _ => 0 }

/-- `DivideScalarScalar<true,true>`: `y = a / b` with `bi = 1/b`;
gradient `(bi, -a·bi²)`, Hessian `((0, -bi²), (-bi², 2a·bi³))`. -/
def opDivideFF (a b : ℕ) : SOp :=
  { ins := [a, b]
    f := fun l => l.getD 0 0 / l.getD 1 0
    d1 := fun l j =>
      if j = 0 then (l.getD 1 0)⁻¹
      else -(l.getD 0 0 * ((l.getD 1 0)⁻¹ * (l.getD 1 0)⁻¹))
    d2 := fun l j k =>
      if j = 0 ∧ k = 0 then 0
      else if k = 1 - j then -((l.getD 1 0)⁻¹ * (l.getD 1 0)⁻¹)
      else 2 * l.getD 0 0 * ((l.getD 1 0)⁻¹ * (l.getD 1 0)⁻¹ * (l.getD 1 0)⁻¹) }

/-- `DivideScalarScalar<false,true>`: `y = c / x` with `bi = 1/x`;
gradient `-c·bi²`, second partial `2c·bi³`. -/
def opDivideConstFree (c : ℚ) (b : ℕ) : SOp :=
  { ins := [b]
    f := fun l => c / l.getD 0 0
    d1 := fun l _ => -(c * ((l.getD 0 0)⁻¹ * (l.getD 0 0)⁻¹))
    d2 := fun l _ _ => 2 * c * ((l.getD 0 0)⁻¹ * (l.getD 0 0)⁻¹ * (l.getD 0 0)⁻¹) }

/-- `PowerScalarScalar<true,false>` at an integer-valued constant exponent
(the peephole cases use `b ∈ {0,1,2,3}`): `y = x^b`, gradient `b·x^(b-1)`,
second partial `(b-1)·b·x^(b-2)`. -/
def opPowerConst (a : ℕ) (b : ℤ) : SOp :=
  { ins := [a]
    f := fun l => l.getD 0 0 ^ b
    d1 := fun l _ => (b : ℚ) * l.getD 0 0 ^ (b - 1)
    d2 := fun l _ _ => ((b : ℚ) - 1) * (b : ℚ) * l.getD 0 0 ^ (b - 2) }

/-- `GreaterThanZeroScalar::evaluate`: `y = x > 0 ? 1 : 0`. -/
def greaterThanZero (x : ℚ) : ℚ :=
  if x > 0 then 1 else 0

/-- `GreaterThanOrEqualZeroScalar::evaluate`: `y = x >= 0 ? 1 : 0`. -/
def greaterThanOrEqualZero (x : ℚ) : ℚ :=
  if x ≥ 0 then 1 else 0

/-- An extended value as produced by the log-scale Iverson operators: a
finite double or `-INFINITY` (the operators never produce `NaN`: their
branches return only `0.0` or `-INFINITY`). -/
inductive XVal where
  | fin (q : ℚ)
  | negInf
deriving Repr, DecidableEq

/-- `LogGreaterThanZeroScalar::evaluate`: `y = x > 0 ? 0 : -INFINITY`. -/
def logGreaterThanZero (x : ℚ) : XVal :=
  if x > 0 then .fin 0 else .negInf

/-- `LogGreaterThanOrEqualZeroScalar::evaluate`:
`y = x >= 0 ? 0 : -INFINITY`. -/
def logGreaterThanOrEqualZero (x : ℚ) : XVal :=
  if x ≥ 0 then .fin 0 else .negInf

/-- The shared `LocalDiff::partial(i, j)` of all four Iverson operator
families (`PartialAlwaysZero`): identically `0`. -/
def iversonPartial1 (x : ℚ) (i j : ℕ) : ℚ := 0

/-- The shared `LocalDiff::partial(i, j, k)` of all four Iverson operator
families (`HessianAlwaysZero`): identically `0`. -/
def iversonPartial2 (x : ℚ) (i j k : ℕ) : ℚ := 0

/-- `GreaterThanZeroScalar` as a tape operator. -/
def opGreaterThanZero (a : ℕ) : SOp :=
  { ins := [a]
    f := fun l => greaterThanZero (l.getD 0 0)
    d1 := fun l j => iversonPartial1 (l.getD 0 0) 0 j
    d2 := fun l j k => iversonPartial2 (l.getD 0 0) 0 j k }

/-- `GreaterThanOrEqualZeroScalar` as a tape operator. -/
def opGreaterThanOrEqualZero (a : ℕ) : SOp :=
  { ins := [a]
    f := fun l => greaterThanOrEqualZero (l.getD 0 0)
    d1 := fun l j => iversonPartial1 (l.getD 0 0) 0 j
    d2 := fun l j k => iversonPartial2 (l.getD 0 0) 0 j k }

/-! ### Concrete tapes used to evaluate the playback claims -/

/-- The input valuation holding `q` in slot 0 (single-input tapes). -/
def inputVal (q : ℚ) : ℕ → ℚ :=
  fun i => if i = 0 then q else 0

/-- The tape recorded for `y = x * x * x`: the peephole turns `x*x` into
`SquareScalar` (slot 1), then `s * x` records
`MultiplyScalarScalar<true,true>` with `in.left = 1`, `in.right = 0`
(slot 2, the objective). -/
def cubeTape : STape :=
  { nIn := 1, ops := [opSquare 0, opMultiplyFF 1 0] }

/-- The peephole tape for `x / x`: a single `TrivialScalar<1>`. -/
def divTrivialTape : STape :=
  { nIn := 1, ops := [opTrivial 1 0] }

/-- `x / x` built without the rewrite: the denominator is a copy of `x`
(recorded `IdentityScalar`, slot 1), then `DivideScalarScalar<true,true>`
with `in.left = 0`, `in.right = 1` (slot 2, the objective). -/
def divGenericTape : STape :=
  { nIn := 1, ops := [opIdentity 0, opDivideFF 0 1] }

/-- The peephole tape for `x - x`: a single `TrivialScalar<0>`. -/
def minusTrivialTape : STape :=
  { nIn := 1, ops := [opTrivial 0 0] }

/-- `x - x` built without the rewrite, via a copy of `x`. -/
def minusGenericTape : STape :=
  { nIn := 1, ops := [opIdentity 0, opMinusFF 0 1] }

/-- The peephole tape for `x + x`: `MultiplyScalarScalar<true,false>` with
constant 2. -/
def plusSpecialTape : STape :=
  { nIn := 1, ops := [opMultiplyConst 0 2] }

/-- `x + x` built without the rewrite, via a copy of `x`. -/
def plusGenericTape : STape :=
  { nIn := 1, ops := [opIdentity 0, opPlusFF 0 1] }

/-- The generic tape for `x ^ b` with a constant exponent. -/
def powGenericTape (b : ℤ) : STape :=
  { nIn := 1, ops := [opPowerConst 0 b] }

/-- The peephole tape for `x ^ 1` (`IdentityScalar`). -/
def identityTape : STape :=
  { nIn := 1, ops := [opIdentity 0] }

/-- The peephole tape for `x ^ 2` (`SquareScalar`). -/
def squareTape : STape :=
  { nIn := 1, ops := [opSquare 0] }

/-- The peephole tape for `x ^ 3` (`CubeScalar`). -/
def cubeSpecialTape : STape :=
  { nIn := 1, ops := [opCube 0] }

/-- The peephole tape for `1 / x` (`InvertScalar`). -/
def invertTape : STape :=
  { nIn := 1, ops := [opInvert 0] }

/-- `1 / x` built without the rewrite
(`DivideScalarScalar<false,true>` with constant 1). -/
def invertGenericTape : STape :=
  { nIn := 1, ops := [opDivideConstFree 1 0] }

/-- Tape for `[x > 0]`. -/
def gtzTape : STape :=
  { nIn := 1, ops := [opGreaterThanZero 0] }

/-- Tape for `[x >= 0]`. -/
def gezTape : STape :=
  { nIn := 1, ops := [opGreaterThanOrEqualZero 0] }

/-! ### Peephole dispatch of the expression builder (claim C5)

The scalar-spy branches of `operator-`, `operator/`, `operator+`
(`spy_minus.cpp`, `spy_divide.cpp`, plus overloads) and of `pow` with a
constant exponent are embedded as pure decision functions returning the
recorded operator kind. -/

/-- The operator kinds the scalar peephole dispatch can record. -/
inductive ScalarOpKind where
  | trivial0
  | trivial1
  | identity
  | square
  | cube
  | invert
  | selfPower
  | multiplyConst (c : ℚ)
  | minusFF
  | divideFF
  | plusFF
  | powerConst (b : ℚ)
  | divideConstFree (c : ℚ)
deriving Repr, DecidableEq

/-- `operator-(Spy, Spy)`, scalar branch: `a - a` (same `tape_begin`)
records `TrivialScalar<0>`, otherwise `MinusScalarScalar<true,true>`. -/
def spyMinusSpy (aBegin bBegin : ℕ) : ScalarOpKind :=
  if aBegin = bBegin then .trivial0 else .minusFF

/-- `operator/(Spy, Spy)`, scalar branch: `a / a` records
`TrivialScalar<1>`, otherwise `DivideScalarScalar<true,true>`. -/
def spyDivideSpy (aBegin bBegin : ℕ) : ScalarOpKind :=
  if aBegin = bBegin then .trivial1 else .divideFF

/-- `operator+(Spy, Spy)`, scalar branch: `a + a` records
`MultiplyScalarScalar<true,false>` with constant `2`, otherwise
`PlusScalarScalar<true,true>`. -/
def spyPlusSpy (aBegin bBegin : ℕ) : ScalarOpKind :=
  if aBegin = bBegin then .multiplyConst 2 else .plusFF

/-- `pow(Spy, Tensor)`, scalar-constant branch: exponents `-1, 0, 1, 2, 3`
collapse to `InvertScalar`, `TrivialScalar<1>`, `IdentityScalar`,
`SquareScalar`, `CubeScalar`; otherwise `PowerScalarScalar<true,false>`. -/
def spyPowConst (b : ℚ) : ScalarOpKind :=
  if b = -1 then .invert
  else if b = 0 then .trivial1
  else if b = 1 then .identity
  else if b = 2 then .square
  else if b = 3 then .cube
  else .powerConst b

/-- `operator/(Tensor, Spy)`, scalar-constant branch: numerator `0` records
`TrivialScalar<0>`, numerator `1` records `InvertScalar`, otherwise
`DivideScalarScalar<false,true>`. -/
def constDivideSpy (c : ℚ) : ScalarOpKind :=
  if c = 0 then .trivial0
  else if c = 1 then .invert
  else .divideConstFree c

/-! ### Tikhonov regularization loop of `Solver::maximize` (claim C3)

`n_regul` enters the loop at 1 (the unregularized attempt failed), the loop
runs `while (n_regul <= max_regularization_attempts)`, each iteration
rebuilds `(1-λ)·H + λ·I` from the buffered Hessian at
`λ = (n_regul / max)^damping` and factorizes; `n_regul` is incremented only
when factorization or solve fails, and nothing exits the loop on success.
Factorization of the same matrix is deterministic, so the outcome is a
function `succ` of the attempt number. -/

/-- One loop body: on success `n_regul` is left unchanged, on failure it is
incremented. -/
def regulStep (succ : ℕ → Bool) (n : ℕ) : ℕ :=
  if succ n then n else n + 1

/-- The fuel-indexed regularization loop: returns the exit value of
`n_regul` when `while (n_regul <= maxAtt)` terminates within `fuel`
iterations, and `none` when the fuel is exhausted with the loop still
running. -/
def regulLoop (maxAtt : ℕ) (succ : ℕ → Bool) : ℕ → ℕ → Option ℕ
  | 0, _ => none
  | fuel + 1, n => if n ≤ maxAtt then regulLoop maxAtt succ fuel (regulStep succ n) else some n

/-- The regularization schedule `λ = (n / max)^damping` with the default
integer damping factor 2.0. -/
def lambdaOf (maxAtt : ℕ) (damping : ℕ) (n : ℕ) : ℚ :=
  ((n : ℚ) / (maxAtt : ℚ)) ^ damping

/-! ### EigenSparseMat construction (`eigen_sparse_matrix.cpp`, claim C4)

The constructor walks the map rows; a row whose index occurs in
`fixed_indices` contributes one `(f, f, -1)` triplet per occurrence and the
rest of the row is skipped; any other row contributes all its entries
verbatim — including entries whose column index is fixed. `setFromTriplets`
sums duplicate triplets; an absent entry of the compressed matrix reads as
zero. -/

/-- Triplets contributed by one row of the map under the fixed-index
neutralization. -/
def rowTriplets (fixed : List ℕ) (r : ℕ × SparseRow) : List (ℕ × ℕ × ℚ) :=
  if fixed.contains r.1 then
    (fixed.filter (fun f => f = r.1)).map (fun f => (f, f, (-1 : ℚ)))
  else
    r.2.map (fun e => (r.1, e.1, e.2))

/-- The full triplet list of `EigenSparseMat::EigenSparseMat`. -/
def eigenTriplets (m : SparseSymMat) (fixed : List ℕ) : List (ℕ × ℕ × ℚ) :=
  m.foldl (fun acc r => acc ++ rowTriplets fixed r) []

/-- `setFromTriplets` semantics at one coefficient: the sum of all triplets
targeting `(i, j)`. -/
def tripletSum (ts : List (ℕ × ℕ × ℚ)) (i j : ℕ) : ℚ :=
  ts.foldl (fun s t => if t.1 = i ∧ t.2.1 = j then s + t.2.2 else s) 0

/-- Coefficient `(i, j)` of the working matrix built for factorization. -/
def eigenEntry (m : SparseSymMat) (fixed : List ℕ) (i j : ℕ) : ℚ :=
  tripletSum (eigenTriplets m fixed) i j

/-- Well-formed map-of-maps: row keys are distinct and each row's column
keys are distinct (automatic for `std::map`). -/
def MatWF (m : SparseSymMat) : Prop :=
  (m.map Prod.fst).Nodup ∧ ∀ e ∈ m, (e.2.map Prod.fst).Nodup

/-! ### End of a Newton iteration (`solver_newton.cpp`, claim C6) -/

/-- The solver configuration fields involved in the line-search commit. -/
structure LineSearchConfig where
  objectiveTolerance : ℚ
  brentToleranceFactor : ℚ

/-- The effective Brent tolerance: `fmin(objective_tolerance *
brent_tolerance_factor, brent_width²)`. -/
def brentTol (cfg : LineSearchConfig) (brentWidth : ℚ) : ℚ :=
  min (cfg.objectiveTolerance * cfg.brentToleranceFactor) (brentWidth * brentWidth)

/-- End of one outer Newton iteration: throw the backtracking failure
(`none`) when the Brent objective is strictly below the iteration's starting
objective minus the effective tolerance, otherwise commit the Brent
objective as the new `objective_new`. -/
def commitLineSearch (cfg : LineSearchConfig) (brentWidth objectiveNew brentObjective : ℚ) :
    Option ℚ :=
  if brentObjective < objectiveNew - brentTol cfg brentWidth then none
  else some brentObjective

/-! ### Recording layer: input declaration and spy copy
(`spy.h`, `tape.h`; claims C7 and C10) -/

/-- Which identity specialization a spy copy records. -/
inductive RecKind where
  | identScalar
  | identVector
deriving Repr, DecidableEq

/-- A recorded operator as seen by the tape bookkeeping: kind, contiguous
input range, contiguous output range. -/
structure RecOp where
  kind : RecKind
  inBegin : ℕ
  inSize : ℕ
  outBegin : ℕ
  outSize : ℕ
deriving Repr, DecidableEq

/-- The tape bookkeeping state: `n_input_size`, `n_trace_size`,
`initial_values`, and the recorded operator sequence. -/
structure RTape where
  nInputSize : ℕ
  nTraceSize : ℕ
  initialValues : List ℚ
  ops : List RecOp
deriving Repr, DecidableEq

/-- The freshly created tape (`Tape()`): both sizes 0, nothing recorded. -/
def RTape.empty : RTape :=
  { nInputSize := 0, nTraceSize := 0, initialValues := [], ops := [] }

/-- A spy handle: its tensor width and its `tape_begin` slot
(`tape_end = tape_begin + size`). -/
structure MSpy where
  size : ℕ
  tapeBegin : ℕ
deriving Repr, DecidableEq

/-- `Spy(initial_value, tape)` (automatic-index constructor): fails with the
declaration-after-recording error whenever the tape holds a recorded
operator, otherwise assigns `tape_begin = input_size()`, grows
`n_input_size` and `n_trace_size` by the value's width and appends the
value's elements to `initial_values`. -/
def spyDeclare (t : RTape) (v : List ℚ) : Except String (RTape × MSpy) :=
  if t.ops.length > 0 then
    .error "Attempt to declare an input Spy after recording started."
  else
    .ok
      ({ t with
          nInputSize := t.nInputSize + v.length
          nTraceSize := t.nTraceSize + v.length
          initialValues := t.initialValues ++ v },
        { size := v.length, tapeBegin := t.nInputSize })

/-- `Tape::op_register`: append the operator and grow `n_trace_size` by its
output width. -/
def opRegister (t : RTape) (op : RecOp) : RTape :=
  { t with ops := t.ops ++ [op], nTraceSize := t.nTraceSize + op.outSize }

/-- `Tape::rec<IdentityScalar / IdentityVector>` as invoked by the spy copy
constructor: output begins at the current `trace_size()`; the scalar form is
chosen when the source is scalar (`size == 1`) and has output width 1, the
vector form's output width equals the input width. -/
def recIdentity (t : RTape) (s : MSpy) : RTape × ℕ :=
  let outBegin := t.nTraceSize
  let op : RecOp :=
    { kind := if s.size = 1 then .identScalar else .identVector
      inBegin := s.tapeBegin
      inSize := s.size
      outBegin := outBegin
      outSize := s.size }
  (opRegister t op, outBegin)

/-- `Spy(const Spy&)`: record an identity operator on the source's range and
return a handle of the same shape whose `tape_begin` is the new output
range. -/
def spyCopy (t : RTape) (s : MSpy) : RTape × MSpy :=
  let r := recIdentity t s
  (r.1, { size := s.size, tapeBegin := r.2 })

/-! ## Lemmas: association-list primitives -/

theorem alookup_aset {α : Type} (l : List (ℕ × α)) (k : ℕ) (v : α) (k' : ℕ) :
    alookup (aset l k v) k' = if k' = k then some v else alookup l k' := by
  induction l with
  | nil =>
    rcases eq_or_ne k' k with h | h
    · subst h
      simp [aset, alookup]
    · simp [aset, alookup, h, Ne.symm h]
  | cons e t ih =>
    by_cases he : e.1 = k
    · rcases eq_or_ne k' k with h | h
      · subst h
        simp [aset, he, alookup]
      · have hek' : ¬ e.1 = k' := by
          rw [he]
          exact Ne.symm h
        simp [aset, he, alookup, h, Ne.symm h, hek']
    · by_cases h1 : e.1 = k'
      · have hk : ¬ k' = k := fun hh => he (h1.trans hh)
        simp [aset, he, alookup, h1, hk]
      · simp [aset, he, alookup, h1, ih]

theorem alookup_akeyerase {α : Type} (l : List (ℕ × α)) (k k' : ℕ) :
    alookup (akeyerase l k) k' = if k' = k then none else alookup l k' := by
  induction l with
  | nil =>
    rcases eq_or_ne k' k with h | h <;> simp [akeyerase, alookup, h]
  | cons e t ih =>
    by_cases he : e.1 = k
    · rcases eq_or_ne k' k with h | h
      · subst h
        simp [akeyerase, he, ih]
      · have hek' : ¬ e.1 = k' := by
          rw [he]
          exact Ne.symm h
        simp [akeyerase, he, alookup, h, Ne.symm h, ih, hek']
    · by_cases h1 : e.1 = k'
      · have hk : ¬ k' = k := fun hh => he (h1.trans hh)
        simp [akeyerase, he, alookup, h1, hk]
      · simp [akeyerase, he, alookup, h1, ih]

theorem alookup_append_some {α : Type} {l₁ : List (ℕ × α)} {k : ℕ} {v : α}
    (l₂ : List (ℕ × α)) (h : alookup l₁ k = some v) :
    alookup (l₁ ++ l₂) k = some v := by
  induction l₁ with
  | nil => simp [alookup] at h
  | cons e t ih =>
    by_cases he : e.1 = k
    · simp [alookup, he] at h ⊢
      exact h
    · simp [alookup, he] at h ⊢
      exact ih h

theorem alookup_append_none {α : Type} {l₁ : List (ℕ × α)} {k : ℕ}
    (l₂ : List (ℕ × α)) (h : alookup l₁ k = none) :
    alookup (l₁ ++ l₂) k = alookup l₂ k := by
  induction l₁ with
  | nil => simp [alookup]
  | cons e t ih =>
    by_cases he : e.1 = k
    · simp [alookup, he] at h
    · simp [alookup, he] at h ⊢
      exact ih h

theorem alookup_isSome_iff_mem {α : Type} (l : List (ℕ × α)) (k : ℕ) :
    (alookup l k).isSome = true ↔ k ∈ l.map Prod.fst := by
  induction l with
  | nil => simp [alookup]
  | cons e t ih =>
    by_cases h : e.1 = k
    · simp [alookup, h]
    · simp only [alookup, h, if_false, List.map_cons, List.mem_cons, ih]
      constructor
      · exact Or.inr
      · rintro (hk | hk)
        · exact absurd hk.symm h
        · exact hk

/-! ## Lemmas: SparseSymMat reads, writes and the two-way entry scheme -/

namespace SparseSymMat

theorem stored_eq (m : SparseSymMat) (i j : ℕ) :
    stored m i j = (alookup (getRow m i) j).isSome := by
  unfold stored getRow
  cases alookup m i <;> simp [alookup]

theorem read_eq (m : SparseSymMat) (i j : ℕ) :
    read m i j = (alookup (getRow m i) j).getD 0 := by
  unfold read getRow
  cases h : alookup m i
  · simp [alookup]
  · simp only [Option.getD_some]
    cases alookup _ j <;> simp

theorem read_eq_zero_of_not_stored {m : SparseSymMat} {i j : ℕ}
    (h : stored m i j = false) : read m i j = 0 := by
  rw [read_eq]
  rw [stored_eq] at h
  cases hl : alookup (getRow m i) j
  · simp
  · rw [hl] at h
    simp at h

theorem getRow_insertEntryDefault_self (m : SparseSymMat) (i j : ℕ) :
    getRow (insertEntryDefault m i j) i = rowInsertDefault (getRow m i) j := by
  unfold insertEntryDefault getRow
  cases h : alookup m i
  · rw [alookup_append_none _ h]
    simp [alookup, rowInsertDefault]
  · rw [alookup_aset]
    simp [h]

theorem getRow_insertEntryDefault_ne (m : SparseSymMat) (i j a : ℕ) (h : a ≠ i) :
    getRow (insertEntryDefault m i j) a = getRow m a := by
  unfold insertEntryDefault getRow
  cases hi : alookup m i
  · cases ha : alookup m a
    · rw [alookup_append_none _ ha]
      simp [alookup, h, Ne.symm h]
    · rw [alookup_append_some _ ha]
  · rw [alookup_aset]
    simp [h]

theorem alookup_rowInsertDefault_self (r : SparseRow) (j : ℕ) :
    alookup (rowInsertDefault r j) j = some ((alookup r j).getD 0) := by
  unfold rowInsertDefault
  cases h : alookup r j
  · simp only [h, Option.isSome_none, Bool.false_eq_true, if_false, Option.getD_none]
    rw [alookup_append_none _ h]
    simp [alookup]
  · simp [h]

theorem alookup_rowInsertDefault_ne (r : SparseRow) (j b : ℕ) (h : b ≠ j) :
    alookup (rowInsertDefault r j) b = alookup r b := by
  unfold rowInsertDefault
  cases hj : alookup r j
  · simp only [hj, Option.isSome_none, Bool.false_eq_true, if_false]
    cases hb : alookup r b
    · rw [alookup_append_none _ hb]
      simp [alookup, h, Ne.symm h]
    · rw [alookup_append_some _ hb]
  · simp [hj]

theorem stored_insertEntryDefault (m : SparseSymMat) (i j a b : ℕ) :
    stored (insertEntryDefault m i j) a b = true ↔
      stored m a b = true ∨ (a = i ∧ b = j) := by
  rcases eq_or_ne a i with ha | ha
  · subst ha
    rw [stored_eq, stored_eq, getRow_insertEntryDefault_self]
    rcases eq_or_ne b j with hb | hb
    · subst hb
      rw [alookup_rowInsertDefault_self]
      simp
    · rw [alookup_rowInsertDefault_ne _ _ _ hb]
      simp [hb]
  · rw [stored_eq, stored_eq, getRow_insertEntryDefault_ne _ _ _ _ ha]
    simp [ha]

theorem read_insertEntryDefault (m : SparseSymMat) (i j a b : ℕ) :
    read (insertEntryDefault m i j) a b = read m a b := by
  rcases eq_or_ne a i with ha | ha
  · subst ha
    rw [read_eq, read_eq, getRow_insertEntryDefault_self]
    rcases eq_or_ne b j with hb | hb
    · subst hb
      rw [alookup_rowInsertDefault_self]
      simp
    · rw [alookup_rowInsertDefault_ne _ _ _ hb]
  · rw [read_eq, read_eq, getRow_insertEntryDefault_ne _ _ _ _ ha]

theorem stored_prepareWrite (m : SparseSymMat) (i j a b : ℕ) :
    stored (prepareWrite m i j) a b = true ↔
      stored m a b = true ∨ (a = i ∧ b = j) ∨ (a = j ∧ b = i) := by
  rcases eq_or_ne j i with hj | hj
  · subst hj
    simp only [prepareWrite, if_pos rfl, if_true, eq_self_iff_true]
    rw [stored_insertEntryDefault]
    tauto
  · simp only [prepareWrite, if_neg hj]
    rw [stored_insertEntryDefault, stored_insertEntryDefault]
    tauto

theorem read_prepareWrite (m : SparseSymMat) (i j a b : ℕ) :
    read (prepareWrite m i j) a b = read m a b := by
  rcases eq_or_ne j i with hj | hj
  · subst hj
    simp only [prepareWrite, if_pos rfl, if_true, eq_self_iff_true]
    rw [read_insertEntryDefault]
  · simp only [prepareWrite, if_neg hj]
    rw [read_insertEntryDefault, read_insertEntryDefault]

theorem getRow_aset (m : SparseSymMat) (i : ℕ) (r : SparseRow) (a : ℕ) :
    getRow (aset m i r) a = if a = i then r else getRow m a := by
  unfold getRow
  rw [alookup_aset]
  rcases eq_or_ne a i with h | h <;> simp [h]

theorem stored_helper_none {m : SparseSymMat} {i : ℕ} (j : ℕ)
    (hi : alookup m i = none) : stored m i j = false := by
  unfold stored
  rw [hi]

theorem stored_helper_entry {m : SparseSymMat} {i j : ℕ} {r : SparseRow}
    (hi : alookup m i = some r) :
    stored m i j = (alookup r j).isSome := by
  rw [stored_eq]
  unfold getRow
  rw [hi]
  rfl

theorem read_helper_entry {m : SparseSymMat} {i j : ℕ} {r : SparseRow}
    (hi : alookup m i = some r) :
    read m i j = (alookup r j).getD 0 := by
  rw [read_eq]
  unfold getRow
  rw [hi]
  rfl

theorem stored_addAt (m : SparseSymMat) (i j : ℕ) (x : ℚ) (a b : ℕ) :
    stored (addAt m i j x) a b = stored m a b := by
  unfold addAt
  cases hi : alookup m i
  · rfl
  case some r =>
    show stored
      (match alookup r j with
        | none => m
        | some v => aset m i (aset r j (v + x))) a b = stored m a b
    cases hj : alookup r j
    · rfl
    case some v =>
      rw [stored_eq, stored_eq, getRow_aset]
      rcases eq_or_ne a i with ha | ha
      · subst ha
        simp only [eq_self_iff_true, if_true]
        rw [alookup_aset]
        have hr : getRow m a = r := by
          unfold getRow
          rw [hi]
          rfl
        rcases eq_or_ne b j with hb | hb
        · subst hb
          simp [hr, hj]
        · simp [hb, hr]
      · simp [ha]

theorem read_addAt (m : SparseSymMat) (i j : ℕ) (x : ℚ) (a b : ℕ) :
    read (addAt m i j x) a b =
      if stored m i j = true ∧ a = i ∧ b = j then read m a b + x
      else read m a b := by
  unfold addAt
  cases hi : alookup m i
  · have hs : stored m i j = false := stored_helper_none j hi
    simp [hs]
  case some r =>
    show read
      (match alookup r j with
        | none => m
        | some v => aset m i (aset r j (v + x))) a b = _
    cases hj : alookup r j
    · have hs : stored m i j = false := by
        rw [stored_helper_entry hi, hj]
        rfl
      simp [hs]
    case some v =>
      have hs : stored m i j = true := by
        rw [stored_helper_entry hi, hj]
        rfl
      rw [read_eq, getRow_aset]
      rcases eq_or_ne a i with ha | ha
      · subst ha
        simp only [eq_self_iff_true, if_true]
        rw [alookup_aset]
        rcases eq_or_ne b j with hb | hb
        · subst hb
          have hv : read m a b = v := by
            rw [read_helper_entry hi, hj]
            rfl
          simp [hs, hv]
        · have hrb : read m a b = (alookup r b).getD 0 := read_helper_entry hi
          simp [hb, hrb]
      · have hrb : read m a b = (alookup (getRow m a) b).getD 0 := read_eq m a b
        simp [ha, hrb]

theorem stored_setAt (m : SparseSymMat) (i j : ℕ) (x : ℚ) (a b : ℕ) :
    stored (setAt m i j x) a b = stored m a b := by
  unfold setAt
  cases hi : alookup m i
  · rfl
  case some r =>
    show stored
      (match alookup r j with
        | none => m
        | some _ => aset m i (aset r j x)) a b = stored m a b
    cases hj : alookup r j
    · rfl
    case some v =>
      rw [stored_eq, stored_eq, getRow_aset]
      rcases eq_or_ne a i with ha | ha
      · subst ha
        simp only [eq_self_iff_true, if_true]
        rw [alookup_aset]
        have hr : getRow m a = r := by
          unfold getRow
          rw [hi]
          rfl
        rcases eq_or_ne b j with hb | hb
        · subst hb
          simp [hr, hj]
        · simp [hb, hr]
      · simp [ha]

theorem read_setAt (m : SparseSymMat) (i j : ℕ) (x : ℚ) (a b : ℕ) :
    read (setAt m i j x) a b =
      if stored m i j = true ∧ a = i ∧ b = j then x
      else read m a b := by
  unfold setAt
  cases hi : alookup m i
  · have hs : stored m i j = false := stored_helper_none j hi
    simp [hs]
  case some r =>
    show read
      (match alookup r j with
        | none => m
        | some _ => aset m i (aset r j x)) a b = _
    cases hj : alookup r j
    · have hs : stored m i j = false := by
        rw [stored_helper_entry hi, hj]
        rfl
      simp [hs]
    case some v =>
      have hs : stored m i j = true := by
        rw [stored_helper_entry hi, hj]
        rfl
      rw [read_eq, getRow_aset]
      rcases eq_or_ne a i with ha | ha
      · subst ha
        simp only [eq_self_iff_true, if_true]
        rw [alookup_aset]
        rcases eq_or_ne b j with hb | hb
        · subst hb
          simp [hs]
        · have hrb : read m a b = (alookup r b).getD 0 := read_helper_entry hi
          simp [hb, hrb]
      · have hrb : read m a b = (alookup (getRow m a) b).getD 0 := read_eq m a b
        simp [ha, hrb]

theorem plusEq_zero (m : SparseSymMat) (i j : ℕ) : plusEq m i j 0 = m := by
  simp [plusEq, refPlusEq, get]

theorem plusEq_ne (m : SparseSymMat) (i j : ℕ) {x : ℚ} (hx : x ≠ 0) :
    plusEq m i j x =
      if j = i then addAt (prepareWrite m i j) i j x
      else addAt (addAt (prepareWrite m i j) i j x) j i x := by
  simp only [plusEq, refPlusEq, get, if_neg hx, Bool.false_eq_true, if_false]
  split_ifs <;> rfl

theorem assign_zero (m : SparseSymMat) (i j : ℕ) : assign m i j 0 = m := by
  simp [assign, refAssign, refSetZero, get]

theorem assign_ne (m : SparseSymMat) (i j : ℕ) {x : ℚ} (hx : x ≠ 0) :
    assign m i j x =
      if j = i then setAt (prepareWrite m i j) i j x
      else setAt (setAt (prepareWrite m i j) i j x) j i x := by
  simp only [assign, refAssign, get, if_neg hx, Bool.false_eq_true, if_false]
  split_ifs <;> rfl

theorem read_plusEq (m : SparseSymMat) (i j : ℕ) (x : ℚ) (a b : ℕ) :
    read (plusEq m i j x) a b =
      read m a b + (if (a = i ∧ b = j) ∨ (a = j ∧ b = i) then x else 0) := by
  rcases eq_or_ne x 0 with hx | hx
  · subst hx
    rw [plusEq_zero]
    split_ifs <;> ring
  · rw [plusEq_ne m i j hx]
    have hpw_ij : stored (prepareWrite m i j) i j = true :=
      (stored_prepareWrite m i j i j).mpr (Or.inr (Or.inl ⟨rfl, rfl⟩))
    rcases eq_or_ne j i with hj | hj
    · subst hj
      rw [if_pos rfl, read_addAt]
      simp only [hpw_ij, read_prepareWrite, true_and]
      by_cases c : a = j ∧ b = j
      · simp [c]
      · simp [c]
    · rw [if_neg hj]
      have hA1 : ∀ a' b', read (addAt (prepareWrite m i j) i j x) a' b' =
          if a' = i ∧ b' = j then read m a' b' + x else read m a' b' := by
        intro a' b'
        rw [read_addAt]
        simp only [hpw_ij, read_prepareWrite, true_and]
      have hs2 : stored (addAt (prepareWrite m i j) i j x) j i = true := by
        rw [stored_addAt]
        exact (stored_prepareWrite m i j j i).mpr (Or.inr (Or.inr ⟨rfl, rfl⟩))
      rw [read_addAt, hs2]
      simp only [hA1, true_and, eq_self_iff_true]
      by_cases c1 : a = i ∧ b = j
      · have c2 : ¬ (a = j ∧ b = i) := by
          rintro ⟨ha, hb⟩
          exact hj (ha.symm.trans c1.1)
        simp [c1, c2, hj, Ne.symm hj]
      · by_cases c2 : a = j ∧ b = i
        · simp [c1, c2, hj, Ne.symm hj]
        · simp [c1, c2]

theorem stored_plusEq (m : SparseSymMat) (i j : ℕ) (x : ℚ) (a b : ℕ) :
    stored (plusEq m i j x) a b = true ↔
      stored m a b = true ∨ (x ≠ 0 ∧ ((a = i ∧ b = j) ∨ (a = j ∧ b = i))) := by
  rcases eq_or_ne x 0 with hx | hx
  · subst hx
    rw [plusEq_zero]
    simp
  · rw [plusEq_ne m i j hx]
    rcases eq_or_ne j i with hj | hj
    · subst hj
      rw [if_pos rfl, stored_addAt, stored_prepareWrite]
      constructor
      · rintro (h | h | h)
        · exact Or.inl h
        · exact Or.inr ⟨hx, Or.inl h⟩
        · exact Or.inr ⟨hx, Or.inl h⟩
      · rintro (h | ⟨-, h | h⟩)
        · exact Or.inl h
        · exact Or.inr (Or.inl h)
        · exact Or.inr (Or.inl h)
    · rw [if_neg hj, stored_addAt, stored_addAt, stored_prepareWrite]
      constructor
      · rintro (h | h | h)
        · exact Or.inl h
        · exact Or.inr ⟨hx, Or.inl h⟩
        · exact Or.inr ⟨hx, Or.inr h⟩
      · rintro (h | ⟨-, h | h⟩)
        · exact Or.inl h
        · exact Or.inr (Or.inl h)
        · exact Or.inr (Or.inr h)

theorem read_assign_ne (m : SparseSymMat) (i j : ℕ) {x : ℚ} (hx : x ≠ 0) (a b : ℕ) :
    read (assign m i j x) a b =
      if (a = i ∧ b = j) ∨ (a = j ∧ b = i) then x else read m a b := by
  rw [assign_ne m i j hx]
  have hpw_ij : stored (prepareWrite m i j) i j = true :=
    (stored_prepareWrite m i j i j).mpr (Or.inr (Or.inl ⟨rfl, rfl⟩))
  rcases eq_or_ne j i with hj | hj
  · subst hj
    rw [if_pos rfl, read_setAt]
    simp only [hpw_ij, read_prepareWrite, true_and]
    by_cases c : a = j ∧ b = j
    · simp [c]
    · simp [c]
  · rw [if_neg hj]
    have hA1 : ∀ a' b', read (setAt (prepareWrite m i j) i j x) a' b' =
        if a' = i ∧ b' = j then x else read m a' b' := by
      intro a' b'
      rw [read_setAt]
      simp only [hpw_ij, read_prepareWrite, true_and]
    have hs2 : stored (setAt (prepareWrite m i j) i j x) j i = true := by
      rw [stored_setAt]
      exact (stored_prepareWrite m i j j i).mpr (Or.inr (Or.inr ⟨rfl, rfl⟩))
    rw [read_setAt, hs2]
    simp only [hA1, true_and, eq_self_iff_true]
    by_cases c1 : a = i ∧ b = j
    · have c2 : ¬ (a = j ∧ b = i) := by
        rintro ⟨ha, hb⟩
        exact hj (ha.symm.trans c1.1)
      simp [c1, c2, hj, Ne.symm hj]
    · by_cases c2 : a = j ∧ b = i
      · simp [c1, c2, hj, Ne.symm hj]
      · simp [c1, c2]

theorem stored_assign_ne (m : SparseSymMat) (i j : ℕ) {x : ℚ} (hx : x ≠ 0) (a b : ℕ) :
    stored (assign m i j x) a b = true ↔
      stored m a b = true ∨ (a = i ∧ b = j) ∨ (a = j ∧ b = i) := by
  rw [assign_ne m i j hx]
  rcases eq_or_ne j i with hj | hj
  · subst hj
    rw [if_pos rfl, stored_setAt, stored_prepareWrite]
  · rw [if_neg hj, stored_setAt, stored_setAt, stored_prepareWrite]

theorem symOK_nil : SymOK [] := by
  intro i j
  constructor <;> simp [stored, read, alookup]

theorem symOK_plusEq {m : SparseSymMat} (h : SymOK m) (i j : ℕ) (x : ℚ) :
    SymOK (plusEq m i j x) := by
  intro a b
  constructor
  · rw [stored_plusEq, stored_plusEq]
    have hs := (h a b).1
    tauto
  · rw [read_plusEq, read_plusEq, (h a b).2]
    have hc : ((a = i ∧ b = j) ∨ (a = j ∧ b = i)) ↔ ((b = i ∧ a = j) ∨ (b = j ∧ a = i)) := by
      tauto
    by_cases c : (a = i ∧ b = j) ∨ (a = j ∧ b = i)
    · simp [c, hc.mp c]
    · have c' : ¬ ((b = i ∧ a = j) ∨ (b = j ∧ a = i)) := fun hcc => c (hc.mpr hcc)
      simp [c, c']

theorem stored_rowEraseEntry (m : SparseSymMat) (i j a b : ℕ) :
    stored (rowEraseEntry m i j) a b = true ↔
      stored m a b = true ∧ ¬(a = i ∧ b = j) := by
  unfold rowEraseEntry
  cases hi : alookup m i
  · rcases eq_or_ne a i with ha | ha
    · subst ha
      rw [stored_helper_none b hi]
      simp
    · simp [ha]
  case some r =>
    show stored
      (if akeyerase r j = [] then akeyerase m i else aset m i (akeyerase r j)) a b = true ↔ _
    by_cases hr : akeyerase r j = []
    · rw [if_pos hr]
      rcases eq_or_ne a i with ha | ha
      · subst ha
        have h1 : stored (akeyerase m a) a b = false := by
          unfold stored
          rw [alookup_akeyerase]
          simp
        rw [h1]
        rcases eq_or_ne b j with hb | hb
        · simp [hb]
        · have h2 : stored m a b = false := by
            rw [stored_helper_entry hi]
            have : alookup r b = alookup (akeyerase r j) b := by
              rw [alookup_akeyerase]
              simp [hb]
            rw [this, hr]
            simp [alookup]
          simp [h2]
      · have h1 : stored (akeyerase m i) a b = stored m a b := by
          unfold stored
          rw [alookup_akeyerase]
          simp [ha]
        rw [h1]
        simp [ha]
    · rw [if_neg hr]
      rcases eq_or_ne a i with ha | ha
      · subst ha
        rw [stored_helper_entry (by rw [alookup_aset] ; simp : alookup (aset m a (akeyerase r j)) a = some (akeyerase r j))]
        rw [stored_helper_entry hi]
        rw [alookup_akeyerase]
        rcases eq_or_ne b j with hb | hb
        · simp [hb]
        · simp [hb]
      · have h1 : alookup (aset m i (akeyerase r j)) a = alookup m a := by
          rw [alookup_aset]
          simp [ha]
        unfold stored
        rw [h1]
        simp [ha]

theorem read_rowEraseEntry (m : SparseSymMat) (i j a b : ℕ) :
    read (rowEraseEntry m i j) a b = if a = i ∧ b = j then 0 else read m a b := by
  unfold rowEraseEntry
  cases hi : alookup m i
  · rcases eq_or_ne a i with ha | ha
    · subst ha
      rw [read_eq_zero_of_not_stored (stored_helper_none b hi)]
      simp
    · simp [ha]
  case some r =>
    show read
      (if akeyerase r j = [] then akeyerase m i else aset m i (akeyerase r j)) a b = _
    by_cases hr : akeyerase r j = []
    · rw [if_pos hr]
      rcases eq_or_ne a i with ha | ha
      · subst ha
        have h1 : read (akeyerase m a) a b = 0 := by
          apply read_eq_zero_of_not_stored
          unfold stored
          rw [alookup_akeyerase]
          simp
        rw [h1]
        rcases eq_or_ne b j with hb | hb
        · simp [hb]
        · have h2 : read m a b = 0 := by
            apply read_eq_zero_of_not_stored
            rw [stored_helper_entry hi]
            have : alookup r b = alookup (akeyerase r j) b := by
              rw [alookup_akeyerase]
              simp [hb]
            rw [this, hr]
            simp [alookup]
          simp [h2, hb]
      · have h1 : read (akeyerase m i) a b = read m a b := by
          rw [read_eq, read_eq]
          unfold getRow
          rw [alookup_akeyerase]
          simp [ha]
        rw [h1]
        simp [ha]
    · rw [if_neg hr]
      rcases eq_or_ne a i with ha | ha
      · subst ha
        rw [read_helper_entry (by rw [alookup_aset] ; simp : alookup (aset m a (akeyerase r j)) a = some (akeyerase r j))]
        rw [read_helper_entry hi]
        rw [alookup_akeyerase]
        rcases eq_or_ne b j with hb | hb
        · simp [hb]
        · simp [hb]
      · have h1 : alookup (aset m i (akeyerase r j)) a = alookup m a := by
          rw [alookup_aset]
          simp [ha]
        rw [read_eq, read_eq]
        unfold getRow
        rw [h1]
        simp [ha]

theorem stored_eraseFold (i : ℕ) (L : SparseRow) (m : SparseSymMat) (a b : ℕ) :
    stored (L.foldl (fun acc e => if e.1 = i then acc else rowEraseEntry acc e.1 i) m) a b = true ↔
      stored m a b = true ∧ ¬(b = i ∧ a ≠ i ∧ a ∈ L.map Prod.fst) := by
  induction L generalizing m with
  | nil => simp
  | cons e t ih =>
    simp only [List.foldl_cons, List.map_cons, List.mem_cons]
    by_cases he : e.1 = i
    · rw [if_pos he]
      rw [ih]
      have hae : a = e.1 → a = i := fun h => h.trans he
      constructor
      · rintro ⟨hs, hn⟩
        refine ⟨hs, ?_⟩
        rintro ⟨hb, ha, hm | hm⟩
        · exact ha (hae hm)
        · exact hn ⟨hb, ha, hm⟩
      · rintro ⟨hs, hn⟩
        refine ⟨hs, ?_⟩
        rintro ⟨hb, ha, hm⟩
        exact hn ⟨hb, ha, Or.inr hm⟩
    · rw [if_neg he]
      rw [ih, stored_rowEraseEntry]
      have hne : a = e.1 → a ≠ i := fun h hi => he (h ▸ hi)
      constructor
      · rintro ⟨⟨hs, hn1⟩, hn2⟩
        refine ⟨hs, ?_⟩
        rintro ⟨hb, ha, hm | hm⟩
        · exact hn1 ⟨hm, hb⟩
        · exact hn2 ⟨hb, ha, hm⟩
      · rintro ⟨hs, hn⟩
        refine ⟨⟨hs, ?_⟩, ?_⟩
        · rintro ⟨hm, hb⟩
          exact hn ⟨hb, hne hm, Or.inl hm⟩
        · rintro ⟨hb, ha, hm⟩
          exact hn ⟨hb, ha, Or.inr hm⟩

theorem read_eraseFold (i : ℕ) (L : SparseRow) (m : SparseSymMat) (a b : ℕ) :
    read (L.foldl (fun acc e => if e.1 = i then acc else rowEraseEntry acc e.1 i) m) a b =
      if b = i ∧ a ≠ i ∧ a ∈ L.map Prod.fst then 0 else read m a b := by
  induction L generalizing m with
  | nil => simp
  | cons e t ih =>
    simp only [List.foldl_cons, List.map_cons, List.mem_cons]
    by_cases he : e.1 = i
    · rw [if_pos he]
      rw [ih]
      have hae : a = e.1 → a = i := fun h => h.trans he
      by_cases c : b = i ∧ a ≠ i ∧ a ∈ t.map Prod.fst
      · rw [if_pos c, if_pos ⟨c.1, c.2.1, Or.inr c.2.2⟩]
      · rw [if_neg c]
        by_cases c' : b = i ∧ a ≠ i ∧ (a = e.1 ∨ a ∈ t.map Prod.fst)
        · rcases c'.2.2 with hm | hm
          · exact absurd (hae hm) c'.2.1
          · exact absurd ⟨c'.1, c'.2.1, hm⟩ c
        · rw [if_neg c']
    · rw [if_neg he]
      rw [ih, read_rowEraseEntry]
      have hne : a = e.1 → a ≠ i := fun h hi => he (h ▸ hi)
      by_cases c : b = i ∧ a ≠ i ∧ a ∈ t.map Prod.fst
      · rw [if_pos c, if_pos ⟨c.1, c.2.1, Or.inr c.2.2⟩]
      · rw [if_neg c]
        by_cases c1 : a = e.1 ∧ b = i
        · rw [if_pos c1, if_pos ⟨c1.2, hne c1.1, Or.inl c1.1⟩]
        · rw [if_neg c1]
          by_cases c' : b = i ∧ a ≠ i ∧ (a = e.1 ∨ a ∈ t.map Prod.fst)
          · rcases c'.2.2 with hm | hm
            · exact absurd ⟨hm, c'.1⟩ c1
            · exact absurd ⟨c'.1, c'.2.1, hm⟩ c
          · rw [if_neg c']

theorem stored_iff_mem_rowKeys (m : SparseSymMat) (i a : ℕ) :
    stored m i a = true ↔ a ∈ (getRow m i).map Prod.fst := by
  rw [stored_eq, alookup_isSome_iff_mem]

theorem stored_erase (m : SparseSymMat) (i a b : ℕ) :
    stored (erase m i) a b = true ↔
      stored m a b = true ∧ a ≠ i ∧ ¬(b = i ∧ stored m i a = true) := by
  unfold erase
  cases hi : alookup m i
  · rcases eq_or_ne a i with ha | ha
    · subst ha
      rw [stored_helper_none b hi]
      simp
    · rw [stored_helper_none a hi]
      simp [ha]
  case some rowi =>
    show stored (akeyerase
      (rowi.foldl (fun acc e => if e.1 = i then acc else rowEraseEntry acc e.1 i) m) i) a b = true ↔ _
    have hrow : getRow m i = rowi := by
      unfold getRow
      rw [hi]
      rfl
    rcases eq_or_ne a i with ha | ha
    · subst ha
      have h1 : ∀ mm : SparseSymMat, stored (akeyerase mm a) a b = false := by
        intro mm
        unfold stored
        rw [alookup_akeyerase]
        simp
      rw [h1]
      simp
    · have h1 : ∀ mm : SparseSymMat, stored (akeyerase mm i) a b = stored mm a b := by
        intro mm
        unfold stored
        rw [alookup_akeyerase]
        simp [ha]
      rw [h1, stored_eraseFold]
      simp only [stored_iff_mem_rowKeys m i a, hrow]
      constructor
      · rintro ⟨hs, hn⟩
        exact ⟨hs, ha, fun hc => hn ⟨hc.1, ha, hc.2⟩⟩
      · rintro ⟨hs, -, hn⟩
        exact ⟨hs, fun hc => hn ⟨hc.1, hc.2.2⟩⟩

theorem read_erase (m : SparseSymMat) (i a b : ℕ) :
    read (erase m i) a b =
      if a = i ∨ (b = i ∧ stored m i a = true) then 0 else read m a b := by
  unfold erase
  cases hi : alookup m i
  · rcases eq_or_ne a i with ha | ha
    · subst ha
      rw [read_eq_zero_of_not_stored (stored_helper_none b hi)]
      simp
    · have h2 : stored m i a = false := stored_helper_none a hi
      rw [h2]
      simp [ha]
  case some rowi =>
    show read (akeyerase
      (rowi.foldl (fun acc e => if e.1 = i then acc else rowEraseEntry acc e.1 i) m) i) a b = _
    have hrow : getRow m i = rowi := by
      unfold getRow
      rw [hi]
      rfl
    rcases eq_or_ne a i with ha | ha
    · subst ha
      have h1 : ∀ mm : SparseSymMat, read (akeyerase mm a) a b = 0 := by
        intro mm
        apply read_eq_zero_of_not_stored
        unfold stored
        rw [alookup_akeyerase]
        simp
      rw [h1]
      simp
    · have h1 : ∀ mm : SparseSymMat, read (akeyerase mm i) a b = read mm a b := by
        intro mm
        rw [read_eq, read_eq]
        unfold getRow
        rw [alookup_akeyerase]
        simp [ha]
      rw [h1, read_eraseFold]
      simp only [stored_iff_mem_rowKeys m i a, hrow]
      by_cases c : b = i ∧ a ∈ rowi.map Prod.fst
      · rw [if_pos ⟨c.1, ha, c.2⟩, if_pos (Or.inr c)]
      · have c1 : ¬ (b = i ∧ a ≠ i ∧ a ∈ rowi.map Prod.fst) := fun hc => c ⟨hc.1, hc.2.2⟩
        rw [if_neg c1, if_neg (by
          rintro (hc | hc)
          · exact ha hc
          · exact c hc)]

theorem symOK_erase {m : SparseSymMat} (h : SymOK m) (i : ℕ) : SymOK (erase m i) := by
  intro a b
  constructor
  · rw [stored_erase, stored_erase]
    constructor
    · rintro ⟨hs, ha, hn⟩
      refine ⟨(h a b).1.mp hs, ?_, ?_⟩
      · intro hb
        exact hn ⟨hb, (h a i).1.mp (hb ▸ hs)⟩
      · rintro ⟨hai, -⟩
        exact ha hai
    · rintro ⟨hs, hb, hn⟩
      refine ⟨(h a b).1.mpr hs, ?_, ?_⟩
      · intro ha
        exact hn ⟨ha, (h b i).1.mp (ha ▸ hs)⟩
      · rintro ⟨hbi, -⟩
        exact hb hbi
  · rw [read_erase, read_erase]
    rcases eq_or_ne a i with ha | ha
    · subst ha
      rw [if_pos (Or.inl rfl)]
      rcases eq_or_ne b a with hb | hb
      · subst hb
        rw [if_pos (Or.inl rfl)]
      · by_cases hs : stored m a b = true
        · rw [if_pos (Or.inr ⟨rfl, hs⟩)]
        · rw [if_neg (by
            rintro (hc | ⟨-, hc⟩)
            · exact hb hc
            · exact hs hc)]
          have hs' : stored m a b = false := by
            revert hs
            cases stored m a b <;> simp
          rw [(h b a).2, read_eq_zero_of_not_stored hs']
    · rcases eq_or_ne b i with hb | hb
      · subst hb
        rw [if_pos (Or.inl rfl)]
        by_cases hs : stored m b a = true
        · rw [if_pos (Or.inr ⟨rfl, hs⟩)]
        · rw [if_neg (by
            rintro (hc | ⟨-, hc⟩)
            · exact ha hc
            · exact hs hc)]
          have hs' : stored m a b = false := by
            have := (h a b).1
            revert hs this
            cases stored m a b <;> cases stored m b a <;> simp
          rw [read_eq_zero_of_not_stored hs']
      · rw [if_neg (by
          rintro (hc | ⟨hc, -⟩)
          · exact ha hc
          · exact hb hc)]
        rw [if_neg (by
          rintro (hc | ⟨hc, -⟩)
          · exact hb hc
          · exact ha hc)]
        exact (h a b).2

theorem symOK_assign {m : SparseSymMat} (h : SymOK m) (i j : ℕ) (x : ℚ) :
    SymOK (assign m i j x) := by
  rcases eq_or_ne x 0 with hx | hx
  · subst hx
    rw [assign_zero]
    exact h
  · intro a b
    constructor
    · rw [stored_assign_ne m i j hx, stored_assign_ne m i j hx]
      have hs := (h a b).1
      tauto
    · rw [read_assign_ne m i j hx, read_assign_ne m i j hx, (h a b).2]
      have hc : ((a = i ∧ b = j) ∨ (a = j ∧ b = i)) ↔ ((b = i ∧ a = j) ∨ (b = j ∧ a = i)) := by
        tauto
      by_cases c : (a = i ∧ b = j) ∨ (a = j ∧ b = i)
      · simp [c, hc.mp c]
      · have c' : ¬ ((b = i ∧ a = j) ∨ (b = j ∧ a = i)) := fun hcc => c (hc.mpr hcc)
        simp [c, c']

theorem rowInsertDefault_ne_nil (r : SparseRow) (j : ℕ) :
    rowInsertDefault r j ≠ [] := by
  unfold rowInsertDefault
  cases h : alookup r j
  · simp
  · cases r
    · simp [alookup] at h
    · simp

theorem aset_ne_nil {α : Type} (l : List (ℕ × α)) (k : ℕ) (v : α) :
    aset l k v ≠ [] := by
  cases l
  · simp [aset]
  case cons e t =>
    by_cases h : e.1 = k <;> simp [aset, h]

theorem mem_aset {α : Type} {l : List (ℕ × α)} {k : ℕ} {v : α} {e : ℕ × α}
    (h : e ∈ aset l k v) : e = (k, v) ∨ e ∈ l := by
  induction l with
  | nil =>
    simp [aset] at h
    exact Or.inl h
  | cons e' t ih =>
    by_cases he : e'.1 = k
    · simp only [aset, if_pos he, List.mem_cons] at h
      rcases h with h | h
      · exact Or.inl h
      · exact Or.inr (List.mem_cons_of_mem _ h)
    · simp only [aset, if_neg he, List.mem_cons] at h
      rcases h with h | h
      · exact Or.inr (h ▸ List.mem_cons_self _ _)
      · rcases ih h with h1 | h1
        · exact Or.inl h1
        · exact Or.inr (List.mem_cons_of_mem _ h1)

theorem mem_akeyerase {α : Type} {l : List (ℕ × α)} {k : ℕ} {e : ℕ × α}
    (h : e ∈ akeyerase l k) : e ∈ l := by
  induction l with
  | nil => simp [akeyerase] at h
  | cons e' t ih =>
    by_cases he : e'.1 = k
    · simp only [akeyerase, if_pos he] at h
      exact List.mem_cons_of_mem _ (ih h)
    · simp only [akeyerase, if_neg he, List.mem_cons] at h
      rcases h with h | h
      · exact h ▸ List.mem_cons_self _ _
      · exact List.mem_cons_of_mem _ (ih h)

theorem noEmptyRows_akeyerase {m : SparseSymMat} (h : NoEmptyRows m) (k : ℕ) :
    NoEmptyRows (akeyerase m k) :=
  fun e he => h e (mem_akeyerase he)

theorem noEmptyRows_insertEntryDefault {m : SparseSymMat} (h : NoEmptyRows m) (i j : ℕ) :
    NoEmptyRows (insertEntryDefault m i j) := by
  unfold insertEntryDefault
  cases hi : alookup m i
  · intro e he
    rcases List.mem_append.mp he with h1 | h1
    · exact h e h1
    · simp at h1
      rw [h1]
      simp
  case some r =>
    intro e he
    rcases mem_aset he with h1 | h1
    · rw [h1]
      exact rowInsertDefault_ne_nil r j
    · exact h e h1

theorem noEmptyRows_prepareWrite {m : SparseSymMat} (h : NoEmptyRows m) (i j : ℕ) :
    NoEmptyRows (prepareWrite m i j) := by
  unfold prepareWrite
  by_cases hj : j = i
  · rw [if_pos hj]
    exact noEmptyRows_insertEntryDefault h i j
  · rw [if_neg hj]
    exact noEmptyRows_insertEntryDefault (noEmptyRows_insertEntryDefault h i j) j i

theorem noEmptyRows_addAt {m : SparseSymMat} (h : NoEmptyRows m) (i j : ℕ) (x : ℚ) :
    NoEmptyRows (addAt m i j x) := by
  unfold addAt
  cases hi : alookup m i
  · exact h
  case some r =>
    show NoEmptyRows
      (match alookup r j with
        | none => m
        | some v => aset m i (aset r j (v + x)))
    cases hj : alookup r j
    · exact h
    case some v =>
      intro e he
      rcases mem_aset he with h1 | h1
      · rw [h1]
        exact aset_ne_nil r j (v + x)
      · exact h e h1

theorem noEmptyRows_setAt {m : SparseSymMat} (h : NoEmptyRows m) (i j : ℕ) (x : ℚ) :
    NoEmptyRows (setAt m i j x) := by
  unfold setAt
  cases hi : alookup m i
  · exact h
  case some r =>
    show NoEmptyRows
      (match alookup r j with
        | none => m
        | some _ => aset m i (aset r j x))
    cases hj : alookup r j
    · exact h
    case some v =>
      intro e he
      rcases mem_aset he with h1 | h1
      · rw [h1]
        exact aset_ne_nil r j x
      · exact h e h1

theorem noEmptyRows_rowEraseEntry {m : SparseSymMat} (h : NoEmptyRows m) (i j : ℕ) :
    NoEmptyRows (rowEraseEntry m i j) := by
  unfold rowEraseEntry
  cases hi : alookup m i
  · exact h
  case some r =>
    show NoEmptyRows
      (if akeyerase r j = [] then akeyerase m i else aset m i (akeyerase r j))
    by_cases hr : akeyerase r j = []
    · rw [if_pos hr]
      exact noEmptyRows_akeyerase h i
    · rw [if_neg hr]
      intro e he
      rcases mem_aset he with h1 | h1
      · rw [h1]
        exact hr
      · exact h e h1

theorem noEmptyRows_plusEq {m : SparseSymMat} (h : NoEmptyRows m) (i j : ℕ) (x : ℚ) :
    NoEmptyRows (plusEq m i j x) := by
  rcases eq_or_ne x 0 with hx | hx
  · subst hx
    rw [plusEq_zero]
    exact h
  · rw [plusEq_ne m i j hx]
    by_cases hj : j = i
    · rw [if_pos hj]
      exact noEmptyRows_addAt (noEmptyRows_prepareWrite h i j) i j x
    · rw [if_neg hj]
      exact noEmptyRows_addAt (noEmptyRows_addAt (noEmptyRows_prepareWrite h i j) i j x) j i x

theorem noEmptyRows_assign {m : SparseSymMat} (h : NoEmptyRows m) (i j : ℕ) (x : ℚ) :
    NoEmptyRows (assign m i j x) := by
  rcases eq_or_ne x 0 with hx | hx
  · subst hx
    rw [assign_zero]
    exact h
  · rw [assign_ne m i j hx]
    by_cases hj : j = i
    · rw [if_pos hj]
      exact noEmptyRows_setAt (noEmptyRows_prepareWrite h i j) i j x
    · rw [if_neg hj]
      exact noEmptyRows_setAt (noEmptyRows_setAt (noEmptyRows_prepareWrite h i j) i j x) j i x

theorem noEmptyRows_refSetZero {m : SparseSymMat} (h : NoEmptyRows m) (r : ElemRef) :
    NoEmptyRows (refSetZero m r).1 := by
  unfold refSetZero
  by_cases hv : r.valid = false
  · rw [if_pos hv]
    exact h
  · rw [if_neg hv]
    by_cases hj : r.j = r.i
    · rw [if_pos hj]
      exact noEmptyRows_rowEraseEntry h r.i r.j
    · rw [if_neg hj]
      exact noEmptyRows_rowEraseEntry (noEmptyRows_rowEraseEntry h r.i r.j) r.j r.i

end SparseSymMat

/-! ## Lemmas: invariant preservation along folds (used by the reverse sweep) -/

theorem foldl_preserves {σ α : Type} {P : σ → Prop} {step : σ → α → σ}
    (hstep : ∀ s x, P s → P (step s x)) :
    ∀ (L : List α) (s : σ), P s → P (L.foldl step s) := by
  intro L
  induction L with
  | nil =>
    intro s hs
    exact hs
  | cons e t ih =>
    intro s hs
    exact ih _ (hstep s e hs)

theorem symOK_pushingPart1 (op : SOp) (args : List ℚ) (rowi : SparseRow) (i : ℕ)
    {h : SparseSymMat} (hs : SparseSymMat.SymOK h) :
    SparseSymMat.SymOK (pushingPart1 op args rowi i h) := by
  unfold pushingPart1
  refine foldl_preserves ?_ rowi h hs
  intro m e hm
  dsimp only
  split
  · exact hm
  · refine foldl_preserves ?_ _ m hm
    intro m' kl hm'
    dsimp only
    split
    · exact hm'
    · exact SparseSymMat.symOK_plusEq hm' _ _ _

theorem symOK_pushingPart2 (op : SOp) (args : List ℚ) (rowi : SparseRow) (i : ℕ)
    {h : SparseSymMat} (hs : SparseSymMat.SymOK h) :
    SparseSymMat.SymOK (pushingPart2 op args rowi i h) := by
  unfold pushingPart2
  cases alookup rowi i
  · exact hs
  case some ri =>
    refine foldl_preserves ?_ _ h hs
    intro m jl hm
    dsimp only
    split
    · exact hm
    · refine foldl_preserves ?_ _ m hm
      intro m' kl hm'
      dsimp only
      split
      · exact hm'
      · exact SparseSymMat.symOK_plusEq hm' _ _ _

theorem symOK_creatingPart (op : SOp) (args : List ℚ) (w : ℚ)
    {h : SparseSymMat} (hs : SparseSymMat.SymOK h) :
    SparseSymMat.SymOK (creatingPart op args w h) := by
  unfold creatingPart
  refine foldl_preserves ?_ _ h hs
  intro m jl hm
  dsimp only
  refine foldl_preserves ?_ _ _ ?_
  · intro m' kl hm'
    dsimp only
    split
    · exact hm'
    · exact SparseSymMat.symOK_plusEq hm' _ _ _
  · split
    · exact hm
    · exact SparseSymMat.symOK_plusEq hm _ _ _

theorem symOK_processOp (v : ℕ → ℚ) (i : ℕ) (op : SOp) {st : RState}
    (h : SparseSymMat.SymOK st.hess) :
    SparseSymMat.SymOK (processOp v i op st).hess := by
  unfold processOp
  dsimp only
  have h1 := symOK_pushingPart1 op (op.ins.map v) (SparseSymMat.getRow st.hess i) i h
  have h2 := symOK_pushingPart2 op (op.ins.map v) (SparseSymMat.getRow st.hess i) i h1
  have h3 : SparseSymMat.SymOK
      (if st.adj i = 0 then
        pushingPart2 op (op.ins.map v) (SparseSymMat.getRow st.hess i) i
          (pushingPart1 op (op.ins.map v) (SparseSymMat.getRow st.hess i) i st.hess)
      else creatingPart op (op.ins.map v) (st.adj i)
          (pushingPart2 op (op.ins.map v) (SparseSymMat.getRow st.hess i) i
            (pushingPart1 op (op.ins.map v) (SparseSymMat.getRow st.hess i) i st.hess))) := by
    split
    · exact h2
    · exact symOK_creatingPart op (op.ins.map v) (st.adj i) h2
  split
  · exact SparseSymMat.symOK_erase h3 i
  · exact h3

theorem symOK_playReverse (t : STape) (v : ℕ → ℚ) :
    SparseSymMat.SymOK (t.playReverse v).hess := by
  unfold STape.playReverse
  dsimp only
  refine foldl_preserves (P := fun st : RState => SparseSymMat.SymOK st.hess) ?_ _ _
    SparseSymMat.symOK_nil
  intro st pe hst
  exact symOK_processOp v (t.nIn + pe.1) pe.2 hst


/-! ## Further reference-machine lemmas (claim C9) -/

theorem SparseSymMat.refPlusEq_snd_of_ne (m : SparseSymMat) (i j : ℕ) {x : ℚ} (hx : x ≠ 0) :
    (SparseSymMat.refPlusEq m (SparseSymMat.get i j) x).2 =
      { i := i, j := j, valid := true } := by
  simp only [SparseSymMat.refPlusEq, SparseSymMat.get, if_neg hx]
  split_ifs <;> rfl

theorem SparseSymMat.stored_refSetZero_valid (m : SparseSymMat) (i j a b : ℕ) :
    SparseSymMat.stored (SparseSymMat.refSetZero m { i := i, j := j, valid := true }).1 a b = true ↔
      SparseSymMat.stored m a b = true ∧ ¬(a = i ∧ b = j) ∧ ¬(a = j ∧ b = i) := by
  unfold SparseSymMat.refSetZero
  simp only [Bool.true_eq_false, if_false]
  rcases eq_or_ne j i with hj | hj
  · subst hj
    rw [if_pos rfl]
    dsimp only
    rw [SparseSymMat.stored_rowEraseEntry]
    tauto
  · rw [if_neg hj]
    dsimp only
    rw [SparseSymMat.stored_rowEraseEntry, SparseSymMat.stored_rowEraseEntry]
    tauto

/-! ## Lemmas: EigenSparseMat triplet construction (claim C4) -/

theorem tripletSum_shift (ts : List (ℕ × ℕ × ℚ)) (i j : ℕ) (s : ℚ) :
    ts.foldl (fun s t => if t.1 = i ∧ t.2.1 = j then s + t.2.2 else s) s =
      s + tripletSum ts i j := by
  induction ts generalizing s with
  | nil => simp [tripletSum]
  | cons t ts ih =>
    unfold tripletSum
    simp only [List.foldl_cons]
    by_cases h : t.1 = i ∧ t.2.1 = j
    · rw [if_pos h, if_pos h, ih, ih (0 + t.2.2)]
      ring
    · rw [if_neg h, if_neg h, ih, ih 0]
      ring

theorem tripletSum_append (l1 l2 : List (ℕ × ℕ × ℚ)) (i j : ℕ) :
    tripletSum (l1 ++ l2) i j = tripletSum l1 i j + tripletSum l2 i j := by
  unfold tripletSum
  rw [List.foldl_append, tripletSum_shift]
  rfl

theorem tripletSum_eq_zero {ts : List (ℕ × ℕ × ℚ)} {i j : ℕ}
    (h : ∀ t ∈ ts, ¬(t.1 = i ∧ t.2.1 = j)) : tripletSum ts i j = 0 := by
  induction ts with
  | nil => rfl
  | cons t ts ih =>
    unfold tripletSum
    simp only [List.foldl_cons]
    rw [if_neg (h t (List.mem_cons_self _ _))]
    exact ih fun t' ht' => h t' (List.mem_cons_of_mem _ ht')

theorem eigenTriplets_foldl_shift (fixed : List ℕ) :
    ∀ (m : SparseSymMat) (acc : List (ℕ × ℕ × ℚ)),
      m.foldl (fun acc r => acc ++ rowTriplets fixed r) acc =
        acc ++ m.foldl (fun acc r => acc ++ rowTriplets fixed r) [] := by
  intro m
  induction m with
  | nil => simp
  | cons r t ih =>
    intro acc
    simp only [List.foldl_cons]
    rw [ih (acc ++ rowTriplets fixed r), ih (List.nil ++ rowTriplets fixed r)]
    simp

theorem eigenTriplets_cons (r : ℕ × SparseRow) (m : SparseSymMat) (fixed : List ℕ) :
    eigenTriplets (r :: m) fixed = rowTriplets fixed r ++ eigenTriplets m fixed := by
  unfold eigenTriplets
  simp only [List.foldl_cons]
  rw [eigenTriplets_foldl_shift]
  simp

theorem eigenEntry_cons (r : ℕ × SparseRow) (m : SparseSymMat) (fixed : List ℕ) (i j : ℕ) :
    eigenEntry (r :: m) fixed i j =
      tripletSum (rowTriplets fixed r) i j + eigenEntry m fixed i j := by
  unfold eigenEntry
  rw [eigenTriplets_cons, tripletSum_append]

theorem mem_rowTriplets_fst {fixed : List ℕ} {r : ℕ × SparseRow} {t : ℕ × ℕ × ℚ}
    (h : t ∈ rowTriplets fixed r) : t.1 = r.1 := by
  unfold rowTriplets at h
  by_cases hc : fixed.contains r.1
  · rw [if_pos hc] at h
    rcases List.mem_map.mp h with ⟨f, hf, rfl⟩
    have := List.mem_filter.mp hf
    simpa using this.2
  · rw [if_neg hc] at h
    rcases List.mem_map.mp h with ⟨e, he, rfl⟩
    rfl

theorem tripletSum_rowTriplets_ne {fixed : List ℕ} {r : ℕ × SparseRow} {i : ℕ}
    (h : r.1 ≠ i) (j : ℕ) : tripletSum (rowTriplets fixed r) i j = 0 :=
  tripletSum_eq_zero fun t ht hc => h ((mem_rowTriplets_fst ht) ▸ hc.1)

theorem filter_eq_self_of_nodup {l : List ℕ} (hn : l.Nodup) {f : ℕ} (hf : f ∈ l) :
    l.filter (fun x => x = f) = [f] := by
  induction l with
  | nil => cases hf
  | cons a t ih =>
    by_cases ha : a = f
    · subst ha
      have hnotin : a ∉ t := (List.nodup_cons.mp hn).1
      rw [List.filter_cons_of_pos (by simp)]
      have hnil : t.filter (fun x => decide (x = a)) = [] := by
        apply List.filter_eq_nil_iff.mpr
        intro x hx
        simp only [decide_eq_true_eq]
        intro hxa
        exact hnotin (hxa ▸ hx)
      rw [hnil]
    · have hf' : f ∈ t := by
        rcases List.mem_cons.mp hf with h | h
        · exact absurd h.symm ha
        · exact h
      rw [List.filter_cons_of_neg (by simp [ha])]
      exact ih (List.nodup_cons.mp hn).2 hf' 

theorem rowTriplets_fixed {fixed : List ℕ} (hn : fixed.Nodup) {f : ℕ} (hf : f ∈ fixed)
    {r : ℕ × SparseRow} (hr : r.1 = f) :
    rowTriplets fixed r = [(f, f, (-1 : ℚ))] := by
  unfold rowTriplets
  rw [if_pos (by
    subst hr
    exact List.elem_eq_true_of_mem hf)]
  rw [hr, filter_eq_self_of_nodup hn hf]
  rfl

theorem alookup_eq_none_of_not_mem {α : Type} {l : List (ℕ × α)} {k : ℕ}
    (h : alookup l k = none) : ∀ e ∈ l, e.1 ≠ k := by
  intro e he hk
  have : (alookup l k).isSome = true := by
    rw [alookup_isSome_iff_mem]
    exact List.mem_map.mpr ⟨e, he, hk⟩
  rw [h] at this
  cases this

theorem eigenEntry_of_no_row {m : SparseSymMat} {f : ℕ}
    (h : SparseSymMat.rowStored m f = false) (fixed : List ℕ) (j : ℕ) :
    eigenEntry m fixed f j = 0 := by
  have hnone : alookup m f = none := by
    unfold SparseSymMat.rowStored at h
    cases hl : alookup m f
    · rfl
    · rw [hl] at h
      cases h
  have hkeys := alookup_eq_none_of_not_mem hnone
  induction m with
  | nil => rfl
  | cons r t ih =>
    rw [eigenEntry_cons]
    rw [tripletSum_rowTriplets_ne (hkeys r (List.mem_cons_self _ _)) j]
    have ht : alookup t f = none := by
      cases hl : alookup t f
      · rfl
      case some v =>
        have : (alookup t f).isSome = true := by
          rw [hl]
          rfl
        rw [alookup_isSome_iff_mem] at this
        rcases List.mem_map.mp this with ⟨e, he, hk⟩
        exact absurd hk (hkeys e (List.mem_cons_of_mem _ he))
    have hts : SparseSymMat.rowStored t f = false := by
      unfold SparseSymMat.rowStored
      rw [ht]
      rfl
    rw [ih hts ht (alookup_eq_none_of_not_mem ht)]
    ring

theorem tripletSum_rowMap (i : ℕ) (row : SparseRow) (j : ℕ)
    (hn : (row.map Prod.fst).Nodup) :
    tripletSum (row.map fun e => (i, e.1, e.2)) i j = (alookup row j).getD 0 := by
  induction row with
  | nil => rfl
  | cons e t ih =>
    simp only [List.map_cons]
    unfold tripletSum
    simp only [List.foldl_cons]
    by_cases hj : e.1 = j
    · rw [if_pos (show True ∧ e.1 = j from ⟨trivial, hj⟩)]
      rw [tripletSum_shift]
      have hz : tripletSum (t.map fun e => (i, e.1, e.2)) i j = 0 := by
        apply tripletSum_eq_zero
        intro tt htt hc
        rcases List.mem_map.mp htt with ⟨e', he', rfl⟩
        have he1 : e'.1 = j := hc.2
        have : j ∈ t.map Prod.fst := List.mem_map.mpr ⟨e', he', he1⟩
        rw [← hj] at this
        exact (List.nodup_cons.mp (by simpa using hn)).1 this
      rw [hz]
      simp [alookup, hj]
    · rw [if_neg (show ¬(True ∧ e.1 = j) from fun hc => hj hc.2)]
      unfold tripletSum at ih
      rw [ih (by simpa using (List.nodup_cons.mp (by simpa using hn)).2)]
      simp [alookup, hj]

theorem rowTriplets_free {fixed : List ℕ} {r : ℕ × SparseRow}
    (hc : fixed.contains r.1 = false) :
    rowTriplets fixed r = r.2.map (fun e => (r.1, e.1, e.2)) := by
  unfold rowTriplets
  rw [hc]
  rfl

theorem matWF_tail {r : ℕ × SparseRow} {t : SparseSymMat} (hwf : MatWF (r :: t)) :
    MatWF t := by
  refine ⟨?_, ?_⟩
  · have hnd := hwf.1
    rw [List.map_cons, List.nodup_cons] at hnd
    exact hnd.2
  · intro e he
    exact hwf.2 e (List.mem_cons_of_mem _ he)

theorem eigenEntry_fixed_diag {fixed : List ℕ} (hn : fixed.Nodup) {f : ℕ} (hf : f ∈ fixed) :
    ∀ {m : SparseSymMat}, MatWF m → SparseSymMat.rowStored m f = true →
      eigenEntry m fixed f f = -1 := by
  intro m
  induction m with
  | nil =>
    intro _ hrow
    cases hrow
  | cons r t ih =>
    intro hwf hrow
    rw [eigenEntry_cons]
    by_cases hr : r.1 = f
    · rw [rowTriplets_fixed hn hf hr]
      have hnd := hwf.1
      rw [List.map_cons, List.nodup_cons] at hnd
      have hnot : SparseSymMat.rowStored t f = false := by
        cases hl : alookup t f with
        | none =>
          unfold SparseSymMat.rowStored
          rw [hl]
          rfl
        | some v =>
          exfalso
          have hsome : (alookup t f).isSome = true := by
            rw [hl]
            rfl
          rw [alookup_isSome_iff_mem] at hsome
          exact hnd.1 (by rw [hr]; exact hsome)
      rw [eigenEntry_of_no_row hnot fixed f]
      norm_num [tripletSum]
    · rw [tripletSum_rowTriplets_ne hr f]
      have hrow' : SparseSymMat.rowStored t f = true := by
        unfold SparseSymMat.rowStored at hrow ⊢
        unfold alookup at hrow
        rw [if_neg hr] at hrow
        exact hrow
      rw [ih (matWF_tail hwf) hrow']
      ring

theorem eigenEntry_fixed_row_offdiag {fixed : List ℕ} {f : ℕ} (hf : f ∈ fixed)
    {j : ℕ} (hj : j ≠ f) (m : SparseSymMat) :
    eigenEntry m fixed f j = 0 := by
  induction m with
  | nil => rfl
  | cons r t ih =>
    rw [eigenEntry_cons, ih]
    by_cases hr : r.1 = f
    · have hz : tripletSum (rowTriplets fixed r) f j = 0 := by
        apply tripletSum_eq_zero
        intro tt htt hc
        unfold rowTriplets at htt
        rw [if_pos (by rw [hr]; exact List.elem_eq_true_of_mem hf)] at htt
        rcases List.mem_map.mp htt with ⟨x, hx, rfl⟩
        have hx1 : x = r.1 := by simpa using (List.mem_filter.mp hx).2
        exact hj (hc.2.symm.trans (hx1.trans hr))
      rw [hz]
      ring
    · rw [tripletSum_rowTriplets_ne hr j]
      ring

theorem getD_match {α : Type} (o : Option ℚ) :
    (match o with | none => (0 : ℚ) | some v => v) = o.getD 0 := by
  cases o <;> rfl

theorem eigenEntry_free {fixed : List ℕ} {i : ℕ} (hi : fixed.contains i = false) (j : ℕ) :
    ∀ {m : SparseSymMat}, MatWF m → eigenEntry m fixed i j = SparseSymMat.read m i j := by
  intro m
  induction m with
  | nil =>
    intro _
    rfl
  | cons r t ih =>
    intro hwf
    rw [eigenEntry_cons]
    by_cases hr : r.1 = i
    · rw [rowTriplets_free (by rw [hr]; exact hi)]
      rw [hr, tripletSum_rowMap i r.2 j (hwf.2 r (List.mem_cons_self _ _))]
      have hnd := hwf.1
      rw [List.map_cons, List.nodup_cons] at hnd
      have hnot : SparseSymMat.rowStored t i = false := by
        cases hl : alookup t i with
        | none =>
          unfold SparseSymMat.rowStored
          rw [hl]
          rfl
        | some v =>
          exfalso
          have hsome : (alookup t i).isSome = true := by
            rw [hl]
            rfl
          rw [alookup_isSome_iff_mem] at hsome
          exact hnd.1 (by rw [hr]; exact hsome)
      rw [eigenEntry_of_no_row hnot fixed j]
      have halk : alookup (r :: t) i = some r.2 := by
        simp only [alookup]
        rw [if_pos hr]
      unfold SparseSymMat.read
      rw [halk]
      show (alookup r.2 j).getD 0 + 0 = match alookup r.2 j with | none => (0 : ℚ) | some v => v
      cases alookup r.2 j <;> norm_num
    · rw [tripletSum_rowTriplets_ne hr j, ih (matWF_tail hwf)]
      have halk : alookup (r :: t) i = alookup t i := by
        simp only [alookup]
        rw [if_neg hr]
      rw [show SparseSymMat.read (r :: t) i j = SparseSymMat.read t i j from by
        unfold SparseSymMat.read
        rw [halk]]
      ring

/-! ## Claim theorems -/

/-- C2: for every sequence of `SparseSymMat` writes (`+=` or `=` through
`get(i,j)` references and `erase(i)`), the two-way storage scheme stays
symmetric at every point — every stored `(i,j)` has its `(j,i)` mirror
stored with exactly the same value — and in particular the trace Hessian
left by any `play_reverse` sweep is symmetric in this sense. -/
theorem C2_sparse_matrix_two_way_symmetry :
    (∀ (m : SparseSymMat) (l : List HessWrite),
        SparseSymMat.SymOK m → SparseSymMat.SymOK (applyHessWrites m l)) ∧
    (∀ (t : STape) (v : ℕ → ℚ), SparseSymMat.SymOK (t.playReverse v).hess) := by
  constructor
  · intro m l hm
    unfold applyHessWrites
    refine foldl_preserves ?_ l m hm
    intro s w hs
    cases w
    · exact SparseSymMat.symOK_plusEq hs _ _ _
    · exact SparseSymMat.symOK_assign hs _ _ _
    · exact SparseSymMat.symOK_erase hs _
  · exact symOK_playReverse

/-- Witness for C2 at a concrete write sequence from the empty matrix. -/
theorem C2_sparse_matrix_two_way_symmetry_witness :
    SparseSymMat.SymOK (applyHessWrites []
      [HessWrite.plusEq 0 1 5, HessWrite.assign 2 2 3, HessWrite.erase 1]) :=
  C2_sparse_matrix_two_way_symmetry.1 []
    [HessWrite.plusEq 0 1 5, HessWrite.assign 2 2 3, HessWrite.erase 1]
    SparseSymMat.symOK_nil

/-- C9 counterexample: writing `0.0` through the element reference freshly
returned by `get(0,1)` does not remove the stored `(0,1)` entry —
`set_zero` returns immediately because `is_valid_ij` is still false, so the
matrix keeps the entry with value 5. -/
theorem C9_fresh_zero_write_keeps_entry :
    SparseSymMat.assign (SparseSymMat.plusEq [] 0 1 5) 0 1 0 =
        SparseSymMat.plusEq [] 0 1 5 ∧
    SparseSymMat.stored (SparseSymMat.assign (SparseSymMat.plusEq [] 0 1 5) 0 1 0) 0 1 = true ∧
    SparseSymMat.read (SparseSymMat.assign (SparseSymMat.plusEq [] 0 1 5) 0 1 0) 0 1 = 5 := by
  refine ⟨?_, ?_, ?_⟩ <;>
    norm_num [SparseSymMat.assign, SparseSymMat.plusEq, SparseSymMat.refAssign,
      SparseSymMat.refPlusEq, SparseSymMat.refSetZero, SparseSymMat.get,
      SparseSymMat.prepareWrite, SparseSymMat.insertEntryDefault,
      SparseSymMat.rowInsertDefault, SparseSymMat.addAt, SparseSymMat.setAt,
      SparseSymMat.stored, SparseSymMat.read, alookup, aset]

/-- C9 (amended): `read(i,j)` returns 0 exactly when no entry is stored;
nonzero writes through a fresh `get(i,j)` reference update both `(i,j)` and
`(j,i)`; writing zero removes the entries only through a reference that has
already materialized them (a prior nonzero write through the same
reference) — a zero write through a fresh reference is a no-op — and rows
left empty are removed (no empty row ever survives a write). -/
theorem C9_element_reference_read_write :
    (∀ (m : SparseSymMat) (i j : ℕ),
      SparseSymMat.stored m i j = false → SparseSymMat.read m i j = 0) ∧
    (∀ (m : SparseSymMat) (i j : ℕ) (x : ℚ), x ≠ 0 →
      SparseSymMat.stored (SparseSymMat.plusEq m i j x) i j = true ∧
      SparseSymMat.stored (SparseSymMat.plusEq m i j x) j i = true ∧
      SparseSymMat.read (SparseSymMat.plusEq m i j x) i j = SparseSymMat.read m i j + x ∧
      SparseSymMat.read (SparseSymMat.plusEq m i j x) j i = SparseSymMat.read m j i + x) ∧
    (∀ (m : SparseSymMat) (i j : ℕ) (x : ℚ), x ≠ 0 →
      SparseSymMat.stored (SparseSymMat.assign m i j x) i j = true ∧
      SparseSymMat.read (SparseSymMat.assign m i j x) i j = x ∧
      SparseSymMat.read (SparseSymMat.assign m i j x) j i = x) ∧
    (∀ (m : SparseSymMat) (i j : ℕ), SparseSymMat.assign m i j 0 = m) ∧
    (∀ (m : SparseSymMat) (i j : ℕ) (x : ℚ), x ≠ 0 → ∀ (a b : ℕ),
      SparseSymMat.stored
        (SparseSymMat.refAssign (SparseSymMat.refPlusEq m (SparseSymMat.get i j) x).1
          (SparseSymMat.refPlusEq m (SparseSymMat.get i j) x).2 0).1 a b = true ↔
        SparseSymMat.stored (SparseSymMat.refPlusEq m (SparseSymMat.get i j) x).1 a b = true ∧
          ¬(a = i ∧ b = j) ∧ ¬(a = j ∧ b = i)) ∧
    (∀ (m : SparseSymMat) (i j : ℕ) (x : ℚ), SparseSymMat.NoEmptyRows m →
      SparseSymMat.NoEmptyRows (SparseSymMat.plusEq m i j x) ∧
      SparseSymMat.NoEmptyRows (SparseSymMat.assign m i j x) ∧
      ∀ r : SparseSymMat.ElemRef,
        SparseSymMat.NoEmptyRows (SparseSymMat.refSetZero m r).1) := by
  refine ⟨?_, ?_, ?_, ?_, ?_, ?_⟩
  · intro m i j h
    exact SparseSymMat.read_eq_zero_of_not_stored h
  · intro m i j x hx
    refine ⟨?_, ?_, ?_, ?_⟩
    · rw [SparseSymMat.stored_plusEq]
      exact Or.inr ⟨hx, Or.inl ⟨rfl, rfl⟩⟩
    · rw [SparseSymMat.stored_plusEq]
      exact Or.inr ⟨hx, Or.inr ⟨rfl, rfl⟩⟩
    · rw [SparseSymMat.read_plusEq]
      rw [if_pos (Or.inl ⟨rfl, rfl⟩)]
    · rw [SparseSymMat.read_plusEq]
      rw [if_pos (Or.inr ⟨rfl, rfl⟩)]
  · intro m i j x hx
    refine ⟨?_, ?_, ?_⟩
    · rw [SparseSymMat.stored_assign_ne m i j hx]
      exact Or.inr (Or.inl ⟨rfl, rfl⟩)
    · rw [SparseSymMat.read_assign_ne m i j hx]
      rw [if_pos (Or.inl ⟨rfl, rfl⟩)]
    · rw [SparseSymMat.read_assign_ne m i j hx]
      rw [if_pos (Or.inr ⟨rfl, rfl⟩)]
  · intro m i j
    exact SparseSymMat.assign_zero m i j
  · intro m i j x hx a b
    rw [SparseSymMat.refPlusEq_snd_of_ne m i j hx]
    have h0 : (0 : ℚ) = 0 := rfl
    show SparseSymMat.stored (SparseSymMat.refAssign _ _ 0).1 a b = true ↔ _
    unfold SparseSymMat.refAssign
    rw [if_pos h0]
    exact SparseSymMat.stored_refSetZero_valid _ i j a b
  · intro m i j x h
    exact ⟨SparseSymMat.noEmptyRows_plusEq h i j x,
      SparseSymMat.noEmptyRows_assign h i j x,
      fun r => SparseSymMat.noEmptyRows_refSetZero h r⟩

/-- Witness for C9 (amended) at concrete inputs: a nonzero accumulation
stores the entry, and the materialized reference removes it again on a zero
assignment. -/
theorem C9_element_reference_read_write_witness :
    SparseSymMat.stored (SparseSymMat.plusEq [] 0 1 5) 0 1 = true ∧
    ¬ SparseSymMat.stored
      (SparseSymMat.refAssign (SparseSymMat.refPlusEq [] (SparseSymMat.get 0 1) 5).1
        (SparseSymMat.refPlusEq [] (SparseSymMat.get 0 1) 5).2 0).1 0 1 = true := by
  constructor
  · exact (C9_element_reference_read_write.2.1 [] 0 1 5 (by norm_num)).1
  · intro h
    have hc := (C9_element_reference_read_write.2.2.2.2.1 [] 0 1 5 (by norm_num) 0 1).mp h
    exact hc.2.1 ⟨rfl, rfl⟩


/-- C3 (code evaluation): the Tikhonov loop of `Solver::maximize` does not
terminate when an attempt succeeds. `n_regul` is incremented only on
failure and nothing exits the loop on success, so with the deterministic
factorization outcome `succ` and a first success at attempt 1 the loop body
repeats the same `λ` forever: no fuel bound makes
`while (n_regul <= max_regularization_attempts)` exit. The loop terminates
only when every attempt fails, exiting with `n_regul = max + 1` after
`max` regularized attempts, and the schedule `λ = (n/max)^damping` does
reach `λ = 1` at the last attempt. -/
theorem C3_regularization_loop_never_exits_on_success :
    (∀ fuel : ℕ, regulLoop 10 (fun n => n == 1) fuel 1 = none) ∧
    regulLoop 10 (fun _ => false) 12 1 = some 11 ∧
    lambdaOf 10 2 10 = 1 := by
  refine ⟨?_, ?_, ?_⟩
  · intro fuel
    induction fuel with
    | zero => rfl
    | succ n ih =>
      show regulLoop 10 (fun n => n == 1) (n + 1) 1 = none
      rw [regulLoop]
      simp only [regulStep]
      norm_num
      exact ih
  · decide
  · norm_num [lambdaOf]

/-- C6: at the end of each outer Newton iteration the solver throws the
backtracking failure exactly when the Brent objective is strictly below the
iteration's starting objective minus the effective tolerance
`min(objective_tolerance * brent_tolerance_factor, brent_width²)`;
otherwise it commits the Brent objective, which is therefore at least the
starting objective minus that tolerance — and at least the starting
objective minus the configured `objective_tolerance` whenever
`brent_tolerance_factor ≤ 1` (its default is 1.0). -/
theorem C6_newton_iteration_commit_guard (cfg : LineSearchConfig) (w o b : ℚ) :
    (commitLineSearch cfg w o b = none ↔ b < o - brentTol cfg w) ∧
    (∀ v : ℚ, commitLineSearch cfg w o b = some v →
      v = b ∧ o - brentTol cfg w ≤ v ∧
      (cfg.brentToleranceFactor ≤ 1 → 0 ≤ cfg.objectiveTolerance →
        o - cfg.objectiveTolerance ≤ v)) := by
  unfold commitLineSearch
  constructor
  · split_ifs with h
    · simp [h]
    · simp [h]
  · intro v hv
    split_ifs at hv with h
    injection hv with h1
    subst h1
    refine ⟨rfl, ?_, ?_⟩
    · linarith [not_lt.mp h]
    · intro hf ht
      have h1 : brentTol cfg w ≤ cfg.objectiveTolerance := by
        have h2 : brentTol cfg w ≤ cfg.objectiveTolerance * cfg.brentToleranceFactor :=
          min_le_left _ _
        have h3 : cfg.objectiveTolerance * cfg.brentToleranceFactor ≤
            cfg.objectiveTolerance * 1 := mul_le_mul_of_nonneg_left hf ht
        linarith
      linarith [not_lt.mp h]

/-- Witness for C6 at a concrete commit. -/
theorem C6_newton_iteration_commit_guard_witness :
    (0 : ℚ) = 0 ∧ (0 : ℚ) - brentTol ⟨1/1000, 1⟩ 0 ≤ 0 ∧
      ((⟨1/1000, 1⟩ : LineSearchConfig).brentToleranceFactor ≤ 1 →
        0 ≤ (⟨1/1000, 1⟩ : LineSearchConfig).objectiveTolerance →
        (0 : ℚ) - (⟨1/1000, 1⟩ : LineSearchConfig).objectiveTolerance ≤ 0) :=
  (C6_newton_iteration_commit_guard ⟨1/1000, 1⟩ 0 0 0).2 0
    (by norm_num [commitLineSearch, brentTol])

/-- C7: the automatic-index `Spy(initial_value, tape)` constructor throws
the declaration-after-recording error exactly when the tape already holds a
recorded operator; on success `tape_begin` is the pre-call `n_input_size`,
`n_input_size` and `n_trace_size` both grow by the value's width, the
initial values are extended by the value's elements in order, and the
operator sequence is untouched. -/
theorem C7_input_declaration_contract (t : RTape) (v : List ℚ) :
    (spyDeclare t v =
        Except.error "Attempt to declare an input Spy after recording started." ↔
      0 < t.ops.length) ∧
    (∀ (t' : RTape) (s : MSpy), spyDeclare t v = Except.ok (t', s) →
      s.tapeBegin = t.nInputSize ∧ s.size = v.length ∧
      t'.nInputSize = t.nInputSize + v.length ∧
      t'.nTraceSize = t.nTraceSize + v.length ∧
      t'.initialValues = t.initialValues ++ v ∧
      t'.ops = t.ops) := by
  unfold spyDeclare
  constructor
  · split_ifs with h
    · simp [h]
    · simp only [Nat.pos_iff_ne_zero]
      constructor
      · intro hc
        cases hc
      · intro hc
        exact absurd (Nat.pos_of_ne_zero hc) h
  · intro t' sp hok
    split_ifs at hok with h
    injection hok with h1
    injection h1 with h2 h3
    subst h2
    subst h3
    exact ⟨rfl, rfl, rfl, rfl, rfl, rfl⟩

/-- Witness for C7: declaring a 2-element input on a fresh tape. -/
theorem C7_input_declaration_contract_witness :
    (⟨2, 0⟩ : MSpy).tapeBegin = RTape.empty.nInputSize ∧
    (⟨2, 0⟩ : MSpy).size = [(3 : ℚ), 4].length ∧
    (⟨2, 2, [3, 4], []⟩ : RTape).nInputSize = RTape.empty.nInputSize + [(3 : ℚ), 4].length ∧
    (⟨2, 2, [3, 4], []⟩ : RTape).nTraceSize = RTape.empty.nTraceSize + [(3 : ℚ), 4].length ∧
    (⟨2, 2, [3, 4], []⟩ : RTape).initialValues = RTape.empty.initialValues ++ [3, 4] ∧
    (⟨2, 2, [3, 4], []⟩ : RTape).ops = RTape.empty.ops :=
  (C7_input_declaration_contract RTape.empty [3, 4]).2 ⟨2, 2, [3, 4], []⟩ ⟨2, 0⟩ rfl

/-- C10: copying a spy is not pure bookkeeping — it appends exactly one
identity operator (scalar form when the source is scalar, vector form
otherwise) spanning the source's range, grows `n_trace_size` by the
source's width, and returns a handle of the same shape whose `tape_begin`
is the freshly recorded output range; the input bookkeeping, initial
values, previously recorded operators and the source handle are unchanged. -/
theorem C10_spy_copy_records_identity (t : RTape) (s : MSpy) :
    (spyCopy t s).1.ops = t.ops ++
      [{ kind := if s.size = 1 then RecKind.identScalar else RecKind.identVector,
         inBegin := s.tapeBegin, inSize := s.size,
         outBegin := t.nTraceSize, outSize := s.size }] ∧
    (spyCopy t s).1.nTraceSize = t.nTraceSize + s.size ∧
    (spyCopy t s).1.nInputSize = t.nInputSize ∧
    (spyCopy t s).1.initialValues = t.initialValues ∧
    (spyCopy t s).2.tapeBegin = t.nTraceSize ∧
    (spyCopy t s).2.size = s.size :=
  ⟨rfl, rfl, rfl, rfl, rfl, rfl⟩

/-- C8: the Iverson operators evaluate to 1 when their predicate holds and
0 otherwise; their log-scale counterparts evaluate to 0 when the predicate
holds and to the definite value `-INFINITY` otherwise (never an
indeterminate result); the shared local first and second partials of all
four families are identically zero; and consequently a played Iverson tape
leaves a zero adjoint for its input and an empty Hessian while computing
the indicator value. -/
theorem C8_iverson_indicators :
    (∀ x : ℚ,
      (greaterThanZero x = 1 ↔ 0 < x) ∧
      (greaterThanZero x = 0 ↔ x ≤ 0) ∧
      (greaterThanOrEqualZero x = 1 ↔ 0 ≤ x) ∧
      (greaterThanOrEqualZero x = 0 ↔ x < 0) ∧
      (logGreaterThanZero x = XVal.fin 0 ↔ 0 < x) ∧
      (logGreaterThanZero x = XVal.negInf ↔ x ≤ 0) ∧
      (logGreaterThanOrEqualZero x = XVal.fin 0 ↔ 0 ≤ x) ∧
      (logGreaterThanOrEqualZero x = XVal.negInf ↔ x < 0) ∧
      (∀ i j : ℕ, iversonPartial1 x i j = 0) ∧
      (∀ i j k : ℕ, iversonPartial2 x i j k = 0)) ∧
    (∀ q : ℚ,
      gtzTape.objective (inputVal q) = greaterThanZero q ∧
      (gtzTape.play (inputVal q)).2.adj 0 = 0 ∧
      (gtzTape.play (inputVal q)).2.hess = [] ∧
      gezTape.objective (inputVal q) = greaterThanOrEqualZero q ∧
      (gezTape.play (inputVal q)).2.adj 0 = 0 ∧
      (gezTape.play (inputVal q)).2.hess = []) := by
  constructor
  · intro x
    refine ⟨?_, ?_, ?_, ?_, ?_, ?_, ?_, ?_, ?_, ?_⟩
    · unfold greaterThanZero
      split_ifs with h
      · simp [h]
      · simp only [not_lt] at h
        norm_num [h, not_lt.mpr h]
    · unfold greaterThanZero
      split_ifs with h
      · norm_num
        linarith
      · simp only [not_lt] at h
        simp [h]
    · unfold greaterThanOrEqualZero
      split_ifs with h
      · simp [h]
      · simp only [not_le] at h
        norm_num
        linarith
    · unfold greaterThanOrEqualZero
      split_ifs with h
      · norm_num
        linarith
      · simp only [not_le] at h
        simp [h]
    · unfold logGreaterThanZero
      split_ifs with h
      · simp [h]
      · simp only [not_lt] at h
        simp [not_lt.mpr h]
    · unfold logGreaterThanZero
      split_ifs with h
      · simp
        linarith
      · simp only [not_lt] at h
        simp [h]
    · unfold logGreaterThanOrEqualZero
      split_ifs with h
      · simp [h]
      · simp only [not_le] at h
        simp [not_le.mpr h]
    · unfold logGreaterThanOrEqualZero
      split_ifs with h
      · simp
        linarith
      · simp only [not_le] at h
        simp [h]
    · intro i j
      rfl
    · intro i j k
      rfl
  · intro q
    refine ⟨?_, ?_, ?_, ?_, ?_, ?_⟩ <;>
      norm_num [gtzTape, gezTape, STape.play, STape.playForward, STape.playReverse,
        STape.objective, STape.traceSize, playForwardFrom, processOp, adjointUpdate,
        pushingPart1, pushingPart2, creatingPart, opGreaterThanZero,
        opGreaterThanOrEqualZero, iversonPartial1, iversonPartial2, inputVal,
        List.enum, List.enumFrom, List.range', List.range, List.range.loop,
        SparseSymMat.getRow, SparseSymMat.rowStored, SparseSymMat.erase,
        SparseSymMat.plusEq, SparseSymMat.refPlusEq, SparseSymMat.get,
        alookup, Function.update]


set_option maxHeartbeats 16000000 in
/-- C1 (code evaluation at the failing input): on the tape recorded for
`y = x / x` with the denominator built as a copy of `x` (`t1 =
IdentityScalar(x)`, then `y = DivideScalarScalar(x, t1)`) at `x = 1`,
`play` computes the correct objective `1` and the correct adjoint
`adjoints[0] = 0` (the function is constant near 1), and the sweep erases
the intermediate-slot rows 1 and 2 — but the Hessian support is wrong: the
input pair `(0, 0)` is stored (with value 1), while the second derivative
of the objective with respect to the input is identically 0 (both by the
exact chain rule over the recorded operators, `hessTrue`, and by the
analytic second derivative of `x / x` on ℝ). So the stored row/column set
is a strict superset of the support of the nonzero second derivatives,
refuting the claim. The spurious pair comes from pushing part 1 of
`OpVariantReverse`, which adds the cross term `d(i,j)·h(i,j)` only once
when the live partner `j` is itself an operand, so the cancellation that
makes the true second derivative vanish is lost. -/
theorem C1_play_hessian_support_spurious_pair :
    divGenericTape.objective (inputVal 1) = 1 ∧
    (divGenericTape.play (inputVal 1)).2.adj 0 = 0 ∧
    divGenericTape.grad (inputVal 1) 0 = 0 ∧
    SparseSymMat.rowStored (divGenericTape.play (inputVal 1)).2.hess 1 = false ∧
    SparseSymMat.rowStored (divGenericTape.play (inputVal 1)).2.hess 2 = false ∧
    SparseSymMat.stored (divGenericTape.play (inputVal 1)).2.hess 0 0 = true ∧
    SparseSymMat.read (divGenericTape.play (inputVal 1)).2.hess 0 0 = 1 ∧
    divGenericTape.hessTrue (inputVal 1) 0 0 = 0 ∧
    deriv (deriv (fun x : ℝ => x / x)) 1 = 0 := by
  refine ⟨?_, ?_, ?_, ?_, ?_, ?_, ?_, ?_, ?_⟩
  · norm_num [divGenericTape, STape.objective, STape.playForward, STape.traceSize,
      playForwardFrom, opIdentity, opDivideFF, inputVal, Function.update]
  · norm_num [divGenericTape, STape.play, STape.playForward, STape.playReverse,
      STape.traceSize, playForwardFrom, processOp, adjointUpdate, pushingPart1,
      pushingPart2, creatingPart, opIdentity, opDivideFF, inputVal, List.enum,
      List.enumFrom, List.range', List.range, List.range.loop, SparseSymMat.getRow,
      SparseSymMat.rowStored, SparseSymMat.erase, SparseSymMat.rowEraseEntry,
      SparseSymMat.plusEq, SparseSymMat.refPlusEq, SparseSymMat.get,
      SparseSymMat.prepareWrite, SparseSymMat.insertEntryDefault,
      SparseSymMat.rowInsertDefault, SparseSymMat.addAt, SparseSymMat.setAt,
      SparseSymMat.read, alookup, aset, akeyerase, Function.update]
  · norm_num [divGenericTape, STape.grad, STape.sens, STape.traceSize, sensFrom,
      chainStep, opIdentity, opDivideFF, inputVal, List.range, List.range.loop,
      Function.update]
  · norm_num [divGenericTape, STape.play, STape.playForward, STape.playReverse,
      STape.traceSize, playForwardFrom, processOp, adjointUpdate, pushingPart1,
      pushingPart2, creatingPart, opIdentity, opDivideFF, inputVal, List.enum,
      List.enumFrom, List.range', List.range, List.range.loop, SparseSymMat.getRow,
      SparseSymMat.rowStored, SparseSymMat.erase, SparseSymMat.rowEraseEntry,
      SparseSymMat.plusEq, SparseSymMat.refPlusEq, SparseSymMat.get,
      SparseSymMat.prepareWrite, SparseSymMat.insertEntryDefault,
      SparseSymMat.rowInsertDefault, SparseSymMat.addAt, SparseSymMat.setAt,
      SparseSymMat.read, alookup, aset, akeyerase, Function.update]
  · norm_num [divGenericTape, STape.play, STape.playForward, STape.playReverse,
      STape.traceSize, playForwardFrom, processOp, adjointUpdate, pushingPart1,
      pushingPart2, creatingPart, opIdentity, opDivideFF, inputVal, List.enum,
      List.enumFrom, List.range', List.range, List.range.loop, SparseSymMat.getRow,
      SparseSymMat.rowStored, SparseSymMat.erase, SparseSymMat.rowEraseEntry,
      SparseSymMat.plusEq, SparseSymMat.refPlusEq, SparseSymMat.get,
      SparseSymMat.prepareWrite, SparseSymMat.insertEntryDefault,
      SparseSymMat.rowInsertDefault, SparseSymMat.addAt, SparseSymMat.setAt,
      SparseSymMat.read, alookup, aset, akeyerase, Function.update]
  · norm_num [divGenericTape, STape.play, STape.playForward, STape.playReverse,
      STape.traceSize, playForwardFrom, processOp, adjointUpdate, pushingPart1,
      pushingPart2, creatingPart, opIdentity, opDivideFF, inputVal, List.enum,
      List.enumFrom, List.range', List.range, List.range.loop, SparseSymMat.getRow,
      SparseSymMat.rowStored, SparseSymMat.stored, SparseSymMat.erase,
      SparseSymMat.rowEraseEntry, SparseSymMat.plusEq, SparseSymMat.refPlusEq,
      SparseSymMat.get, SparseSymMat.prepareWrite, SparseSymMat.insertEntryDefault,
      SparseSymMat.rowInsertDefault, SparseSymMat.addAt, SparseSymMat.setAt,
      SparseSymMat.read, alookup, aset, akeyerase, Function.update]
  · norm_num [divGenericTape, STape.play, STape.playForward, STape.playReverse,
      STape.traceSize, playForwardFrom, processOp, adjointUpdate, pushingPart1,
      pushingPart2, creatingPart, opIdentity, opDivideFF, inputVal, List.enum,
      List.enumFrom, List.range', List.range, List.range.loop, SparseSymMat.getRow,
      SparseSymMat.rowStored, SparseSymMat.erase, SparseSymMat.rowEraseEntry,
      SparseSymMat.plusEq, SparseSymMat.refPlusEq, SparseSymMat.get,
      SparseSymMat.prepareWrite, SparseSymMat.insertEntryDefault,
      SparseSymMat.rowInsertDefault, SparseSymMat.addAt, SparseSymMat.setAt,
      SparseSymMat.read, alookup, aset, akeyerase, Function.update]
  · norm_num [divGenericTape, STape.hessTrue, STape.sens, STape.traceSize, sensFrom,
      chainStep, opIdentity, opDivideFF, inputVal, List.range, List.range.loop,
      Function.update]
  · have h1 : (fun x : ℝ => x / x) =ᶠ[nhds 1] fun _ => (1 : ℝ) := by
      filter_upwards [isOpen_ne.mem_nhds (show (1 : ℝ) ∈ {x : ℝ | x ≠ 0} by norm_num)]
        with x hx
      exact div_self hx
    have h3 : deriv (deriv fun x : ℝ => x / x) 1 = deriv (deriv fun _ : ℝ => (1 : ℝ)) 1 :=
      h1.deriv.deriv_eq
    rw [h3]
    simp


set_option maxHeartbeats 16000000 in
/-- C5 (dispatch facts, value equivalences, and the failing Hessian
equivalence): the scalar peephole dispatch emits the claimed unary
specializations; the rewritten tapes agree with their generic counterparts
on values for `x - x`, `x + x` (for all inputs) and on values, gradient and
Hessian at sample points for `x^2`, `x^3` and `1/x`; but for `x / x` the
rewritten tape (`TrivialScalar<1>`) yields the correct empty Hessian while
the tape built without the rewrite yields `H[0][0] = 1` at `x = 1`, even
though the true second derivative of `x/x` is 0 — the Hessian equivalence
claimed for the peephole fails on the code. -/
theorem C5_peephole_dispatch_and_divide_mismatch :
    spyMinusSpy 0 0 = ScalarOpKind.trivial0 ∧
    spyDivideSpy 0 0 = ScalarOpKind.trivial1 ∧
    spyPlusSpy 0 0 = ScalarOpKind.multiplyConst 2 ∧
    spyPowConst 0 = ScalarOpKind.trivial1 ∧
    spyPowConst 1 = ScalarOpKind.identity ∧
    spyPowConst 2 = ScalarOpKind.square ∧
    spyPowConst 3 = ScalarOpKind.cube ∧
    constDivideSpy 1 = ScalarOpKind.invert ∧
    spyDivideSpy 0 1 = ScalarOpKind.divideFF ∧
    (∀ q : ℚ, minusTrivialTape.objective (inputVal q) = 0 ∧
      minusGenericTape.objective (inputVal q) = 0 ∧
      (minusTrivialTape.play (inputVal q)).2.adj 0 = 0 ∧
      (minusGenericTape.play (inputVal q)).2.adj 0 = 0 ∧
      (minusTrivialTape.play (inputVal q)).2.hess = [] ∧
      (minusGenericTape.play (inputVal q)).2.hess = []) ∧
    (∀ q : ℚ, plusSpecialTape.objective (inputVal q) = 2 * q ∧
      plusGenericTape.objective (inputVal q) = 2 * q ∧
      (plusSpecialTape.play (inputVal q)).2.adj 0 = 2 ∧
      (plusGenericTape.play (inputVal q)).2.adj 0 = 2 ∧
      (plusSpecialTape.play (inputVal q)).2.hess = [] ∧
      (plusGenericTape.play (inputVal q)).2.hess = []) ∧
    (squareTape.objective (inputVal 3) = 9 ∧
      (powGenericTape 2).objective (inputVal 3) = 9 ∧
      (squareTape.play (inputVal 3)).2.adj 0 = 6 ∧
      ((powGenericTape 2).play (inputVal 3)).2.adj 0 = 6 ∧
      SparseSymMat.read (squareTape.play (inputVal 3)).2.hess 0 0 = 2 ∧
      SparseSymMat.read ((powGenericTape 2).play (inputVal 3)).2.hess 0 0 = 2) ∧
    (cubeSpecialTape.objective (inputVal 2) = 8 ∧
      (powGenericTape 3).objective (inputVal 2) = 8 ∧
      (cubeSpecialTape.play (inputVal 2)).2.adj 0 = 12 ∧
      ((powGenericTape 3).play (inputVal 2)).2.adj 0 = 12 ∧
      SparseSymMat.read (cubeSpecialTape.play (inputVal 2)).2.hess 0 0 = 12 ∧
      SparseSymMat.read ((powGenericTape 3).play (inputVal 2)).2.hess 0 0 = 12) ∧
    (invertTape.objective (inputVal 2) = 1/2 ∧
      invertGenericTape.objective (inputVal 2) = 1/2 ∧
      (invertTape.play (inputVal 2)).2.adj 0 = -1/4 ∧
      (invertGenericTape.play (inputVal 2)).2.adj 0 = -1/4 ∧
      SparseSymMat.read (invertTape.play (inputVal 2)).2.hess 0 0 = 1/4 ∧
      SparseSymMat.read (invertGenericTape.play (inputVal 2)).2.hess 0 0 = 1/4) ∧
    (divTrivialTape.objective (inputVal 1) = 1 ∧
      divGenericTape.objective (inputVal 1) = 1 ∧
      (divTrivialTape.play (inputVal 1)).2.adj 0 = 0 ∧
      (divGenericTape.play (inputVal 1)).2.adj 0 = 0 ∧
      SparseSymMat.read (divTrivialTape.play (inputVal 1)).2.hess 0 0 = 0 ∧
      SparseSymMat.read (divGenericTape.play (inputVal 1)).2.hess 0 0 = 1 ∧
      divGenericTape.hessTrue (inputVal 1) 0 0 = 0) := by
  refine ⟨rfl, rfl, rfl, ?_, ?_, ?_, ?_, ?_, rfl, ?_, ?_, ?_, ?_, ?_, ?_⟩
  · norm_num [spyPowConst]
  · norm_num [spyPowConst]
  · norm_num [spyPowConst]
  · norm_num [spyPowConst]
  · norm_num [constDivideSpy]
  · intro q
    refine ⟨?_, ?_, ?_, ?_, ?_, ?_⟩ <;>
      norm_num [minusTrivialTape, minusGenericTape, opTrivial, opIdentity, opMinusFF,
        STape.play, STape.playForward, STape.playReverse, STape.objective,
        STape.traceSize, playForwardFrom, processOp, adjointUpdate, pushingPart1,
        pushingPart2, creatingPart, inputVal, List.enum, List.enumFrom, List.range',
        List.range, List.range.loop, SparseSymMat.getRow, SparseSymMat.rowStored,
        SparseSymMat.erase, SparseSymMat.rowEraseEntry, SparseSymMat.plusEq,
        SparseSymMat.refPlusEq, SparseSymMat.get, SparseSymMat.prepareWrite,
        SparseSymMat.insertEntryDefault, SparseSymMat.rowInsertDefault,
        SparseSymMat.addAt, SparseSymMat.setAt, SparseSymMat.read, alookup, aset,
        akeyerase, Function.update]
  · intro q
    refine ⟨?_, ?_, ?_, ?_, ?_, ?_⟩ <;>
      norm_num [plusSpecialTape, plusGenericTape, opMultiplyConst, opIdentity, opPlusFF,
        STape.play, STape.playForward, STape.playReverse, STape.objective,
        STape.traceSize, playForwardFrom, processOp, adjointUpdate, pushingPart1,
        pushingPart2, creatingPart, inputVal, List.enum, List.enumFrom, List.range',
        List.range, List.range.loop, SparseSymMat.getRow, SparseSymMat.rowStored,
        SparseSymMat.erase, SparseSymMat.rowEraseEntry, SparseSymMat.plusEq,
        SparseSymMat.refPlusEq, SparseSymMat.get, SparseSymMat.prepareWrite,
        SparseSymMat.insertEntryDefault, SparseSymMat.rowInsertDefault,
        SparseSymMat.addAt, SparseSymMat.setAt, SparseSymMat.read, alookup, aset,
        akeyerase, Function.update] <;>
      ring
  · refine ⟨?_, ?_, ?_, ?_, ?_, ?_⟩ <;>
      norm_num [squareTape, powGenericTape, opSquare, opPowerConst,
        STape.play, STape.playForward, STape.playReverse, STape.objective,
        STape.traceSize, playForwardFrom, processOp, adjointUpdate, pushingPart1,
        pushingPart2, creatingPart, inputVal, List.enum, List.enumFrom, List.range',
        List.range, List.range.loop, SparseSymMat.getRow, SparseSymMat.rowStored,
        SparseSymMat.erase, SparseSymMat.rowEraseEntry, SparseSymMat.plusEq,
        SparseSymMat.refPlusEq, SparseSymMat.get, SparseSymMat.prepareWrite,
        SparseSymMat.insertEntryDefault, SparseSymMat.rowInsertDefault,
        SparseSymMat.addAt, SparseSymMat.setAt, SparseSymMat.read, alookup, aset,
        akeyerase, Function.update]
  · refine ⟨?_, ?_, ?_, ?_, ?_, ?_⟩ <;>
      norm_num [cubeSpecialTape, powGenericTape, opCube, opPowerConst,
        STape.play, STape.playForward, STape.playReverse, STape.objective,
        STape.traceSize, playForwardFrom, processOp, adjointUpdate, pushingPart1,
        pushingPart2, creatingPart, inputVal, List.enum, List.enumFrom, List.range',
        List.range, List.range.loop, SparseSymMat.getRow, SparseSymMat.rowStored,
        SparseSymMat.erase, SparseSymMat.rowEraseEntry, SparseSymMat.plusEq,
        SparseSymMat.refPlusEq, SparseSymMat.get, SparseSymMat.prepareWrite,
        SparseSymMat.insertEntryDefault, SparseSymMat.rowInsertDefault,
        SparseSymMat.addAt, SparseSymMat.setAt, SparseSymMat.read, alookup, aset,
        akeyerase, Function.update]
  · refine ⟨?_, ?_, ?_, ?_, ?_, ?_⟩ <;>
      norm_num [invertTape, invertGenericTape, opInvert, opDivideConstFree,
        STape.play, STape.playForward, STape.playReverse, STape.objective,
        STape.traceSize, playForwardFrom, processOp, adjointUpdate, pushingPart1,
        pushingPart2, creatingPart, inputVal, List.enum, List.enumFrom, List.range',
        List.range, List.range.loop, SparseSymMat.getRow, SparseSymMat.rowStored,
        SparseSymMat.erase, SparseSymMat.rowEraseEntry, SparseSymMat.plusEq,
        SparseSymMat.refPlusEq, SparseSymMat.get, SparseSymMat.prepareWrite,
        SparseSymMat.insertEntryDefault, SparseSymMat.rowInsertDefault,
        SparseSymMat.addAt, SparseSymMat.setAt, SparseSymMat.read, alookup, aset,
        akeyerase, Function.update]
  · have h7 : divGenericTape.hessTrue (inputVal 1) 0 0 = 0 := by
      norm_num [divGenericTape, STape.hessTrue, STape.sens, sensFrom, chainStep,
        STape.traceSize, opIdentity, opDivideFF, inputVal, List.range, List.range.loop,
        Function.update]
    refine ⟨?_, ?_, ?_, ?_, ?_, ?_, h7⟩ <;>
      norm_num [divTrivialTape, divGenericTape, opTrivial, opIdentity, opDivideFF,
        STape.play, STape.playForward, STape.playReverse, STape.objective,
        STape.traceSize, playForwardFrom, processOp, adjointUpdate, pushingPart1,
        pushingPart2, creatingPart, inputVal, List.enum, List.enumFrom, List.range',
        List.range, List.range.loop, SparseSymMat.getRow, SparseSymMat.rowStored,
        SparseSymMat.erase, SparseSymMat.rowEraseEntry, SparseSymMat.plusEq,
        SparseSymMat.refPlusEq, SparseSymMat.get, SparseSymMat.prepareWrite,
        SparseSymMat.insertEntryDefault, SparseSymMat.rowInsertDefault,
        SparseSymMat.addAt, SparseSymMat.setAt, SparseSymMat.read, alookup, aset,
        akeyerase, Function.update]

/-- **C4 (counterexample).** The original claim says every off-diagonal entry of
the working matrix whose row *or column* is fixed is zero. False: the
constructor only neutralizes fixed *rows*; a free row keeps its entries with
fixed columns verbatim. With Hessian H built by `H(0,1) += 5` and fixed set
`{1}`, the working matrix keeps coefficient `(0,1) = 5 ≠ 0` even though column
1 is fixed. -/
theorem C4_fixed_column_entry_kept :
    SparseSymMat.read (SparseSymMat.plusEq [] 0 1 5) 0 1 = 5 ∧
    eigenEntry (SparseSymMat.plusEq [] 0 1 5) [1] 0 1 = 5 ∧ (5 : ℚ) ≠ 0 := by
  refine ⟨?_, ?_, by norm_num⟩
  · norm_num [SparseSymMat.plusEq, SparseSymMat.refPlusEq, SparseSymMat.get,
      SparseSymMat.prepareWrite, SparseSymMat.insertEntryDefault,
      SparseSymMat.rowInsertDefault, SparseSymMat.addAt, SparseSymMat.read, alookup, aset]
  · norm_num [SparseSymMat.plusEq, SparseSymMat.refPlusEq, SparseSymMat.get,
      SparseSymMat.prepareWrite, SparseSymMat.insertEntryDefault,
      SparseSymMat.rowInsertDefault, SparseSymMat.addAt, alookup, aset,
      eigenEntry, eigenTriplets, rowTriplets, tripletSum, List.contains, List.elem]
    rw [if_neg (by decide)]
    norm_num

/-- **C4 (corrected).** What `EigenSparseMat::EigenSparseMat` actually builds
from a well-formed Hessian map and a duplicate-free fixed set: (a) a fixed
index `f` whose row is materialized gets diagonal coefficient `(f,f) = −1`;
(b) a fixed index with no materialized row contributes nothing (its working
row is entirely zero, without the −1 diagonal); (c) every other entry of a
fixed row is dropped (zero); (d) every free row is copied verbatim — its
entries equal the Hessian entries *including those whose column is fixed*,
which are not zeroed, contrary to the original claim. -/
theorem C4_eigen_matrix_fixed_neutralization (m : SparseSymMat) (fixed : List ℕ)
    (hwf : MatWF m) (hn : fixed.Nodup) :
    (∀ f ∈ fixed, SparseSymMat.rowStored m f = true → eigenEntry m fixed f f = -1) ∧
    (∀ f ∈ fixed, SparseSymMat.rowStored m f = false → ∀ j, eigenEntry m fixed f j = 0) ∧
    (∀ f ∈ fixed, ∀ j, j ≠ f → eigenEntry m fixed f j = 0) ∧
    (∀ i, fixed.contains i = false → ∀ j, eigenEntry m fixed i j = SparseSymMat.read m i j) := by
  refine ⟨?_, ?_, ?_, ?_⟩
  · intro f hf hrow
    exact eigenEntry_fixed_diag hn hf hwf hrow
  · intro f _ hrow j
    exact eigenEntry_of_no_row hrow fixed j
  · intro f hf j hj
    exact eigenEntry_fixed_row_offdiag hf hj m
  · intro i hi j
    exact eigenEntry_free hi j hwf

/-- Witness for C4: on the Hessian `[[2, 5], [5, 3]]` with fixed set `{1}`, the
working matrix has `(1,1) = −1`, `(1,0) = 0`, and keeps the free-row entry
`(0,1)` at its Hessian value. -/
theorem C4_eigen_matrix_fixed_neutralization_witness :
    eigenEntry [(0, [(0, (2 : ℚ)), (1, 5)]), (1, [(0, 5), (1, 3)])] [1] 1 1 = -1 ∧
    eigenEntry [(0, [(0, (2 : ℚ)), (1, 5)]), (1, [(0, 5), (1, 3)])] [1] 1 0 = 0 ∧
    eigenEntry [(0, [(0, (2 : ℚ)), (1, 5)]), (1, [(0, 5), (1, 3)])] [1] 0 1 =
      SparseSymMat.read [(0, [(0, (2 : ℚ)), (1, 5)]), (1, [(0, 5), (1, 3)])] 0 1 := by
  have h := C4_eigen_matrix_fixed_neutralization
    [(0, [(0, (2 : ℚ)), (1, 5)]), (1, [(0, 5), (1, 3)])] [1]
    ⟨by decide, by
      intro e he
      rcases List.mem_cons.mp he with rfl | he
      · decide
      · rcases List.mem_cons.mp he with rfl | he
        · decide
        · cases he⟩ (by decide)
  exact ⟨h.1 1 (by norm_num) rfl, h.2.2.1 1 (by norm_num) 0 (by norm_num), h.2.2.2 0 rfl 1⟩

end Shadow
